import Mathlib

/-!
Verification of the raceday report generator (`src/main.rs`).

The Rust program ingests a JSON race-timing document, aggregates per-pilot
lap counts and best lap times across every race/session/slot, reconciles
them with an `official_ranking` override, flags the event-wide best lap,
computes per-slot best times and a chart series, and renders a report.

Shallow embedding conventions:
* JSON values reached through `serde_json::Value` accessors are modelled by
  typed structures with `Option` fields exactly where the Rust code applies
  `as_i64/as_f64/as_str` with `unwrap_or` defaults; a missing array (races,
  sessions, official_ranking) is modelled as the empty list, which the code
  treats identically (the `if let Some(..)` guards simply skip the loop).
* `f64` lap times are modelled as `ℚ`.  `format!("{:.3}", _)` and
  `format!("{:.1}", _)` are modelled as exact decimal rounding with
  ties-to-even (Rust formats the binary double with the same rule; the
  models agree except where the exact rational tie is not binary
  representable, a divergence no claim here depends on).
* `HashMap<String, String>` values that are only read back by key lookup
  are modelled as association lists with most-recent-insert-first; the
  unspecified iteration order of the Rust `HashMap` is fixed to this list
  order (every property proved about an iteration is order-independent).
* Integer parsing/rendering (`to_string`, `parse::<i64>`, `parse::<f64>`)
  is modelled by the decimal digit functions below; the model covers the
  decimal strings the pipeline actually produces (it does not model exponent
  forms, leading `+`, or i64 overflow, none of which can occur here).
-/

/-- Fuel-driven digit expansion (structural recursion, so that concrete
values evaluate inside the kernel); `fuel` bounds the recursion depth. -/
def natDigitsAux : Nat → Nat → List Char
  | 0, _ => []
  | fuel + 1, n =>
    if n < 10 then [Char.ofNat (48 + n)]
    else natDigitsAux fuel (n / 10) ++ [Char.ofNat (48 + n % 10)]

/-- Decimal digits of a natural number, most significant first
(the rendering used by Rust's `to_string`/`Display`). -/
def natDigits (n : Nat) : List Char := natDigitsAux (n + 1) n

theorem natDigitsAux_congr :
    ∀ (n : Nat) {f1 f2 : Nat}, n < f1 → n < f2 →
      natDigitsAux f1 n = natDigitsAux f2 n := by
  intro n
  induction n using Nat.strong_induction_on with
  | _ n ih =>
    intro f1 f2 h1 h2
    match f1, f2 with
    | g1 + 1, g2 + 1 =>
      rw [natDigitsAux, natDigitsAux]
      split_ifs with h
      · rfl
      · congr 1
        have hdiv : n / 10 < n := Nat.div_lt_self (by omega) (by omega)
        exact ih (n / 10) hdiv (by omega) (by omega)

theorem natDigits_eq (n : Nat) :
    natDigits n =
      if n < 10 then [Char.ofNat (48 + n)]
      else natDigits (n / 10) ++ [Char.ofNat (48 + n % 10)] := by
  rw [natDigits, natDigitsAux]
  split_ifs with h
  · rfl
  · congr 1
    have hdiv : n / 10 < n := Nat.div_lt_self (by omega) (by omega)
    exact natDigitsAux_congr (n / 10) (by omega) (by omega)

/-- Decimal rendering of a natural number. -/
def natRepr (n : Nat) : String := ⟨natDigits n⟩

/-- Decimal rendering of an integer (Rust `i64::to_string`). -/
def intRepr (n : Int) : String :=
  if n < 0 then "-" ++ natRepr (-n).toNat else natRepr n.toNat

/-- Numeric value of a digit list: the fold underlying decimal parsing.
Fails on any non-digit character. -/
def digitsCore (cs : List Char) : Option Nat :=
  cs.foldl
    (fun acc c => acc.bind fun a =>
      if c.isDigit then some (10 * a + (c.toNat - 48)) else none)
    (some 0)

/-- Parse a non-empty all-digit character list. -/
def digitsToNat (cs : List Char) : Option Nat :=
  if cs.isEmpty then none else digitsCore cs

/-- Fuel-driven gcd.  `Nat.gcd` is defined by well-founded recursion, which
the kernel cannot evaluate; this structural version can, and agrees with it
whenever the fuel exceeds the first argument. -/
def gcdF : Nat → Nat → Nat → Nat
  | 0, _, n => n
  | _ + 1, 0, n => n
  | fuel + 1, m + 1, n => gcdF fuel (n % (m + 1)) (m + 1)

/-- Kernel-evaluable gcd. -/
def gcdFuel (m n : Nat) : Nat := gcdF (m + 1) m n

theorem gcdF_eq : ∀ (fuel m n : Nat), m < fuel → gcdF fuel m n = Nat.gcd m n := by
  intro fuel
  induction fuel with
  | zero => intro m n h; omega
  | succ fuel ih =>
    intro m n h
    match m with
    | 0 => rw [gcdF, Nat.gcd_zero_left]
    | m + 1 =>
      rw [gcdF, ih (n % (m + 1)) (m + 1) (by
        have := Nat.mod_lt n (y := m + 1) (by omega)
        omega), Nat.gcd_succ]

theorem gcdFuel_eq (m n : Nat) : gcdFuel m n = Nat.gcd m n :=
  gcdF_eq (m + 1) m n (by omega)

/-- Kernel-evaluable construction of the rational `n / d` (the way a parsed
decimal value or a computed average enters the model); agrees with `n / d`
on `ℚ`, which the kernel cannot evaluate directly. -/
def qMk (n : Int) (d : Nat) : ℚ :=
  if hd : d = 0 then 0
  else
    { num := n / (gcdFuel n.natAbs d : Int)
    , den := d / gcdFuel n.natAbs d
    , den_nz := by rw [gcdFuel_eq]; exact Rat.normalize.den_nz hd rfl
    , reduced := by rw [gcdFuel_eq]; exact Rat.normalize.reduced' hd rfl }

theorem qMk_eq_normalize (n : Int) (d : Nat) (hd : d ≠ 0) :
    qMk n d = Rat.normalize n d hd := by
  rw [qMk, dif_neg hd, Rat.normalize_eq]
  congr 2 <;> rw [gcdFuel_eq]

theorem qMk_eq_div (n : Int) (d : Nat) (hd : d ≠ 0) :
    qMk n d = (n : ℚ) / (d : ℚ) := by
  have h1 : mkRat n d = Rat.normalize n d hd := dif_neg hd
  rw [qMk_eq_normalize n d hd, ← h1, Rat.mkRat_eq_divInt, Rat.divInt_eq_div]
  norm_num

/-- The `999.999` sentinel of `main.rs` lines 135/143, as a kernel-evaluable
rational literal. -/
def sentinel : ℚ := ⟨999999, 1000, by norm_num, by norm_num⟩

theorem sentinel_eq : sentinel = 999999 / 1000 := by
  rw [sentinel, Rat.mk'_eq_divInt, Rat.divInt_eq_div]
  norm_num

theorem sentinel_pos : 0 < sentinel := by rw [sentinel_eq]; norm_num

theorem ge900_sentinel : (900 : ℚ) ≤ sentinel := by rw [sentinel_eq]; norm_num

/-- Split a character list at the first `'.'`:
returns the prefix and, when a dot was found, the remainder. -/
def splitDot : List Char → List Char × Option (List Char)
  | [] => ([], none)
  | c :: cs =>
    if c = '.' then ([], some cs)
    else
      let p := splitDot cs
      (c :: p.1, p.2)

/-- Model of Rust `str::parse::<f64>` on the non-negative decimal strings
this pipeline produces (`ddd` or `ddd.ddd`); anything else fails, in
particular the placeholder `"---"`. -/
def parseDec (s : String) : Option ℚ :=
  let p := splitDot s.data
  match p.2 with
  | none => (digitsToNat p.1).map fun n => (n : ℚ)
  | some frac =>
    (digitsToNat p.1).bind fun ip =>
      (digitsToNat frac).map fun fp =>
        qMk (ip * 10 ^ frac.length + fp) (10 ^ frac.length)

/-- Model of Rust `str::parse::<i64>` on optionally `-`-signed decimal
strings (overflow is not modelled; it cannot occur on the values the
pipeline renders). -/
def parseI (s : String) : Option Int :=
  match s.data with
  | [] => none
  | c :: cs =>
    if c = '-' then (digitsToNat cs).map fun n => -(n : Int)
    else (digitsToNat (c :: cs)).map fun n => (n : Int)

/-- Round to the nearest integer, ties to even: the rounding Rust's float
formatting applies to the exact value of the double. -/
def roundHalfEven (x : ℚ) : ℤ :=
  let fl := ⌊x⌋
  let r := x - fl
  if 1 / 2 < r then fl + 1
  else if r < 1 / 2 then fl
  else if 2 ∣ fl then fl else fl + 1

/-- Left-pad to three digits (the fractional part of a `{:.3}` format). -/
def pad3 (m : Nat) : String :=
  (if m < 10 then "00" else if m < 100 then "0" else "") ++ natRepr m

/-- Round-half-even of `a / b`, computed on integers so that the kernel can
evaluate it (`b` is positive wherever this is used: it is a rational's
denominator). -/
def rheND (a : Int) (b : Nat) : Int :=
  let fl := a / (b : Int)
  let r2 := 2 * (a - fl * b)
  if (b : Int) < r2 then fl + 1
  else if r2 < (b : Int) then fl
  else if fl % 2 = 0 then fl else fl + 1

/-- Model of `format!("{:.3}", t)` on the non-negative times this pipeline
formats: round `1000·t` half-to-even, then print with three decimals. -/
def fmt3 (q : ℚ) : String :=
  let n := (rheND (1000 * q.num) q.den).toNat
  natRepr (n / 1000) ++ "." ++ pad3 (n % 1000)

/-- Model of `format!("{:.1}", q)` (one decimal, `.` separator). -/
def fmtDec1 (q : ℚ) : String :=
  let n := rheND (10 * q.num) q.den
  if n < 0 then
    "-" ++ natRepr ((-n).toNat / 10) ++ "." ++ natRepr ((-n).toNat % 10)
  else
    natRepr (n.toNat / 10) ++ "." ++ natRepr (n.toNat % 10)

/-- Model of `format!("{:.1}", q).replace(".", ",")`: the only `.` in a
`{:.1}` rendering is the decimal separator. -/
def fmtComma1 (q : ℚ) : String :=
  ⟨(fmtDec1 q).data.map fun c => if c = '.' then ',' else c⟩

-- ### Digit machinery lemmas

theorem natDigits_ne_nil (n : Nat) : natDigits n ≠ [] := by
  rw [natDigits_eq]
  split <;> simp

theorem mem_natDigits_isDigit (n : Nat) : ∀ c ∈ natDigits n, c.isDigit = true := by
  induction n using Nat.strong_induction_on with
  | _ n ih =>
    rw [natDigits_eq]
    split
    · intro c hc
      simp only [List.mem_singleton] at hc
      subst hc
      interval_cases n <;> decide
    · intro c hc
      rcases List.mem_append.1 hc with h1 | h2
      · exact ih (n / 10) (Nat.div_lt_self (by omega) (by omega)) c h1
      · simp only [List.mem_singleton] at h2
        subst h2
        have hm : n % 10 < 10 := Nat.mod_lt _ (by omega)
        interval_cases hh : n % 10 <;> decide

theorem isDigit_ne_dot {c : Char} (h : c.isDigit = true) : c ≠ '.' := by
  intro he; subst he; simp [Char.isDigit] at h

theorem isDigit_ne_dash {c : Char} (h : c.isDigit = true) : c ≠ '-' := by
  intro he; subst he; simp [Char.isDigit] at h

theorem digitsCore_append (xs ys : List Char) :
    digitsCore (xs ++ ys) =
      ys.foldl
        (fun acc c => acc.bind fun a =>
          if c.isDigit then some (10 * a + (c.toNat - 48)) else none)
        (digitsCore xs) := by
  simp [digitsCore, List.foldl_append]

theorem digitsCore_natDigits (n : Nat) : digitsCore (natDigits n) = some n := by
  induction n using Nat.strong_induction_on with
  | _ n ih =>
    rw [natDigits_eq]
    split
    · have : (Char.ofNat (48 + n)).isDigit = true ∧ (Char.ofNat (48 + n)).toNat = 48 + n := by
        interval_cases n <;> exact ⟨by decide, by decide⟩
      simp [digitsCore, this.1, this.2]
    · rw [digitsCore_append, ih (n / 10) (Nat.div_lt_self (by omega) (by omega))]
      have hm : n % 10 < 10 := Nat.mod_lt _ (by omega)
      have : (Char.ofNat (48 + n % 10)).isDigit = true ∧
          (Char.ofNat (48 + n % 10)).toNat = 48 + n % 10 := by
        interval_cases hh : n % 10 <;> exact ⟨by decide, by decide⟩
      simp only [List.foldl_cons, List.foldl_nil, this.1, if_pos, Option.some_bind, this.2]
      congr 1
      omega

theorem digitsToNat_natDigits (n : Nat) : digitsToNat (natDigits n) = some n := by
  rw [digitsToNat, if_neg, digitsCore_natDigits]
  simp [List.isEmpty_iff, natDigits_ne_nil]

theorem splitDot_no_dot (xs : List Char) (h : ∀ c ∈ xs, c ≠ '.') :
    splitDot xs = (xs, none) := by
  induction xs with
  | nil => rfl
  | cons c cs ih =>
    rw [splitDot, if_neg (h c (by simp))]
    rw [ih fun c' hc' => h c' (by simp [hc'])]

theorem splitDot_append_dot (xs ys : List Char) (h : ∀ c ∈ xs, c ≠ '.') :
    splitDot (xs ++ '.' :: ys) = (xs, some ys) := by
  induction xs with
  | nil => simp [splitDot]
  | cons c cs ih =>
    rw [List.cons_append, splitDot, if_neg (h c (by simp))]
    rw [ih fun c' hc' => h c' (by simp [hc'])]

theorem natDigits_no_dot (n : Nat) : ∀ c ∈ natDigits n, c ≠ '.' :=
  fun c hc => isDigit_ne_dot (mem_natDigits_isDigit n c hc)

theorem digitsCore_cons_zero (cs : List Char) :
    digitsCore ('0' :: cs) = digitsCore cs := by
  simp only [digitsCore, List.foldl_cons, Option.some_bind]
  congr 1

theorem natDigits_length_lt10 {n : Nat} (h : n < 10) : (natDigits n).length = 1 := by
  rw [natDigits_eq]; simp [h]

theorem natDigits_length_lt100 {n : Nat} (h1 : 10 ≤ n) (h2 : n < 100) :
    (natDigits n).length = 2 := by
  rw [natDigits_eq, if_neg (by omega)]
  have : (natDigits (n / 10)).length = 1 := natDigits_length_lt10 (by omega)
  simp [this]

theorem natDigits_length_lt1000 {n : Nat} (h1 : 100 ≤ n) (h2 : n < 1000) :
    (natDigits n).length = 3 := by
  rw [natDigits_eq, if_neg (by omega)]
  have : (natDigits (n / 10)).length = 2 := natDigits_length_lt100 (by omega) (by omega)
  simp [this]

theorem pad3_data (m : Nat) :
    (pad3 m).data =
      (if m < 10 then ['0', '0'] else if m < 100 then ['0'] else []) ++ natDigits m := by
  rw [pad3]
  split_ifs <;> simp_all [natRepr, String.data_append]

theorem pad3_no_dot (m : Nat) : ∀ c ∈ (pad3 m).data, c ≠ '.' := by
  rw [pad3_data]
  intro c hc
  rcases List.mem_append.1 hc with h1 | h2
  · split_ifs at h1 <;>
      simp only [List.mem_cons, List.not_mem_nil, or_false] at h1
    · rcases h1 with h | h <;> (subst h; decide)
    · subst h1; decide
  · exact natDigits_no_dot m c h2

theorem pad3_length {m : Nat} (hm : m < 1000) : (pad3 m).data.length = 3 := by
  rw [pad3_data]
  rcases Nat.lt_or_ge m 10 with h | h
  · simp [h, natDigits_length_lt10 h]
  rcases Nat.lt_or_ge m 100 with h2 | h2
  · simp [h2, Nat.not_lt.2 h, natDigits_length_lt100 h h2]
  · simp [Nat.not_lt.2 h, Nat.not_lt.2 h2, natDigits_length_lt1000 h2 hm]

theorem digitsToNat_pad3 (m : Nat) : digitsToNat (pad3 m).data = some m := by
  rw [pad3_data, digitsToNat, if_neg (by simp [natDigits_ne_nil m])]
  split_ifs with h1 h2
  · show digitsCore ('0' :: '0' :: natDigits m) = some m
    rw [digitsCore_cons_zero, digitsCore_cons_zero, digitsCore_natDigits]
  · show digitsCore ('0' :: natDigits m) = some m
    rw [digitsCore_cons_zero, digitsCore_natDigits]
  · show digitsCore ([] ++ natDigits m) = some m
    rw [List.nil_append, digitsCore_natDigits]

theorem roundHalfEven_ge_floor (x : ℚ) : ⌊x⌋ ≤ roundHalfEven x := by
  rw [roundHalfEven]
  split_ifs <;> omega

theorem roundHalfEven_le_floor_add_one (x : ℚ) : roundHalfEven x ≤ ⌊x⌋ + 1 := by
  rw [roundHalfEven]
  split_ifs <;> omega

theorem roundHalfEven_intCast (k : ℤ) : roundHalfEven (k : ℚ) = k := by
  rw [roundHalfEven]
  have h1 : ⌊(k : ℚ)⌋ = k := Int.floor_intCast k
  rw [h1]
  have h2 : (k : ℚ) - (k : ℚ) = 0 := by ring
  rw [h2, if_neg (by norm_num), if_pos (by norm_num)]

theorem rheND_eq (a : Int) (b : Nat) (hb : b ≠ 0) :
    rheND a b = roundHalfEven ((a : ℚ) / (b : ℚ)) := by
  have hbQ : (0 : ℚ) < (b : ℚ) := by exact_mod_cast Nat.pos_of_ne_zero hb
  have hfl : ⌊((a : ℚ) / (b : ℚ))⌋ = a / (b : Int) := Rat.floor_intCast_div_natCast a b
  have hrem : (a : ℚ) / (b : ℚ) - ((a / (b : Int) : ℤ) : ℚ)
      = ((a - (a / (b : Int)) * b : ℤ) : ℚ) / (b : ℚ) := by
    push_cast
    field_simp
    ring
  have hgt : (1 / 2 < (a : ℚ) / (b : ℚ) - ((a / (b : Int) : ℤ) : ℚ)) ↔
      ((b : Int) < 2 * (a - (a / (b : Int)) * b)) := by
    rw [hrem, lt_div_iff hbQ]
    constructor
    · intro h
      have h2 : ((b : ℕ) : ℚ) < ((2 * (a - a / (b : Int) * b) : ℤ) : ℚ) := by
        push_cast at h ⊢
        linarith
      exact_mod_cast h2
    · intro h
      have h2 : ((b : ℕ) : ℚ) < ((2 * (a - a / (b : Int) * b) : ℤ) : ℚ) := by
        exact_mod_cast h
      push_cast at h2 ⊢
      linarith
  have hlt : ((a : ℚ) / (b : ℚ) - ((a / (b : Int) : ℤ) : ℚ) < 1 / 2) ↔
      (2 * (a - (a / (b : Int)) * b) < (b : Int)) := by
    rw [hrem, div_lt_iff hbQ]
    constructor
    · intro h
      have h2 : ((2 * (a - a / (b : Int) * b) : ℤ) : ℚ) < ((b : ℕ) : ℚ) := by
        push_cast at h ⊢
        linarith
      exact_mod_cast h2
    · intro h
      have h2 : ((2 * (a - a / (b : Int) * b) : ℤ) : ℚ) < ((b : ℕ) : ℚ) := by
        exact_mod_cast h
      push_cast at h2 ⊢
      linarith
  have hdvd : (2 ∣ (a / (b : Int))) ↔ ((a / (b : Int)) % 2 = 0) :=
    Int.dvd_iff_emod_eq_zero
  simp only [rheND, roundHalfEven, hfl, hgt, hlt, hdvd]

theorem rheND_fmt3 (q : ℚ) :
    rheND (1000 * q.num) q.den = roundHalfEven (1000 * q) := by
  rw [rheND_eq _ _ q.den_nz]
  congr 1
  push_cast
  rw [mul_div_assoc, Rat.num_div_den]

theorem fmt3_eq (q : ℚ) :
    fmt3 q =
      natRepr ((roundHalfEven (1000 * q)).toNat / 1000) ++ "." ++
        pad3 ((roundHalfEven (1000 * q)).toNat % 1000) := by
  show natRepr ((rheND (1000 * q.num) q.den).toNat / 1000) ++ "." ++
        pad3 ((rheND (1000 * q.num) q.den).toNat % 1000) = _
  rw [rheND_fmt3]

theorem parseDec_fmt3 (q : ℚ) :
    parseDec (fmt3 q) =
      some (((roundHalfEven (1000 * q)).toNat : ℚ) / 1000) := by
  set n := (roundHalfEven (1000 * q)).toNat with hn
  have hdata : (fmt3 q).data = natDigits (n / 1000) ++ '.' :: (pad3 (n % 1000)).data := by
    rw [fmt3_eq, ← hn, String.data_append, String.data_append, List.append_assoc]
    rfl
  rw [parseDec]
  simp only [hdata, splitDot_append_dot _ _ (natDigits_no_dot _)]
  rw [digitsToNat_natDigits, digitsToNat_pad3, pad3_length (Nat.mod_lt _ (by omega))]
  simp only [Option.bind_eq_bind, Option.some_bind, Option.pure_def, Option.map_some']
  congr 1
  have hdm : 1000 * (n / 1000) + n % 1000 = n := Nat.div_add_mod n 1000
  have hq : 1000 * ((n / 1000 : Nat) : ℚ) + ((n % 1000 : Nat) : ℚ) = (n : ℚ) := by
    exact_mod_cast congrArg (Nat.cast : ℕ → ℚ) hdm
  have hnat : (n / 1000 : ℕ) * 10 ^ 3 + n % 1000 = n := by omega
  have hz : ((n / 1000 : ℕ) : ℤ) * 10 ^ 3 + ((n % 1000 : ℕ) : ℤ) = (n : ℤ) := by
    exact_mod_cast congrArg (Nat.cast : ℕ → ℤ) hnat
  rw [hz, qMk_eq_div _ _ (by norm_num)]
  norm_num

theorem fmt3_congr {q1 q2 : ℚ}
    (h : (roundHalfEven (1000 * q1)).toNat = (roundHalfEven (1000 * q2)).toNat) :
    fmt3 q1 = fmt3 q2 := by
  rw [fmt3_eq, fmt3_eq, h]

theorem fmt3_inj_val {q1 q2 : ℚ} (h : fmt3 q1 = fmt3 q2) :
    (roundHalfEven (1000 * q1)).toNat = (roundHalfEven (1000 * q2)).toNat := by
  have h1 := parseDec_fmt3 q1
  rw [h, parseDec_fmt3 q2, Option.some_inj, div_eq_div_iff (by norm_num) (by norm_num)] at h1
  exact_mod_cast (mul_right_cancel₀ (by norm_num : (1000 : ℚ) ≠ 0) h1).symm

theorem mul_thousand_div (n : Nat) : 1000 * ((n : ℚ) / 1000) = (n : ℚ) := by
  field_simp

theorem rhe_thousandth (n : Nat) :
    (roundHalfEven (1000 * ((n : ℚ) / 1000))).toNat = n := by
  rw [mul_thousand_div]
  have : ((n : ℚ)) = ((n : ℤ) : ℚ) := by push_cast; rfl
  rw [this, roundHalfEven_intCast]
  exact Int.toNat_natCast n

theorem parseDec_fmt3_thousandth (n : Nat) :
    parseDec (fmt3 ((n : ℚ) / 1000)) = some ((n : ℚ) / 1000) := by
  rw [parseDec_fmt3, rhe_thousandth]

theorem parseI_cons {s : String} {c : Char} {cs : List Char} (h : s.data = c :: cs) :
    parseI s =
      if c = '-' then (digitsToNat cs).map fun n => -(n : Int)
      else (digitsToNat (c :: cs)).map fun n => (n : Int) := by
  rw [parseI, h]

theorem parseI_intRepr (l : Int) : parseI (intRepr l) = some l := by
  rcases Int.lt_or_le l 0 with h | h
  · rw [intRepr, if_pos h]
    have hdata : ("-" ++ natRepr (-l).toNat).data = '-' :: natDigits (-l).toNat := by
      rw [String.data_append]; rfl
    rw [parseI_cons hdata, if_pos rfl, digitsToNat_natDigits]
    simp only [Option.bind_eq_bind, Option.some_bind, Option.pure_def, Option.map_some']
    congr 1
    omega
  · rw [intRepr, if_neg (by omega)]
    obtain ⟨c, cs, hc⟩ := List.exists_cons_of_ne_nil (natDigits_ne_nil l.toNat)
    have hdig : c.isDigit = true := mem_natDigits_isDigit l.toNat c (by rw [hc]; simp)
    have hdata : (natRepr l.toNat).data = c :: cs := by rw [natRepr, hc]
    rw [parseI_cons hdata, if_neg (isDigit_ne_dash hdig), ← hc, digitsToNat_natDigits]
    simp only [Option.bind_eq_bind, Option.some_bind, Option.pure_def, Option.map_some']
    congr 1
    omega

-- ### Data model (the JSON document shape `main.rs` reads)

/-- A JSON scalar as it can appear at `s_data["p_id"]`, at
`official_ranking[i]["p_id"]`, and inside `raw_results`: a string, an
integer, or anything else (`jnull`, covering absent fields; the pipeline
only ever applies `as_str`/`as_i64`/`to_string` to these values). -/
inductive JVal where
  | jstr (s : String)
  | jint (n : Int)
  | jnull
deriving DecidableEq, Repr

/-- `serde_json::Value::to_string`: strings render quoted, `Null` renders
as `null`. -/
def jToString : JVal → String
  | .jstr s => "\"" ++ s ++ "\""
  | .jint n => intRepr n
  | .jnull => "null"

/-- `Value::as_str`. -/
def jAsStr : JVal → Option String
  | .jstr s => some s
  | _ => none

/-- `Value::as_i64`. -/
def jAsI64 : JVal → Option Int
  | .jint n => some n
  | _ => none

/-- One slot object `{p_id, laps, best}` (`races[].sessions[].slots`
values); `laps`/`best` are `Option` because the code reads them with
`as_i64().unwrap_or(0)` / `as_f64().unwrap_or(0.0)`. -/
structure SlotData where
  p_id : JVal
  laps : Option Int
  best : Option ℚ
deriving DecidableEq, Repr

/-- One session: its `slots` JSON object as an association list in object
order (JSON object keys are unique). -/
structure Session where
  slots : List (String × SlotData)
deriving DecidableEq, Repr

/-- One race: its `sessions` array. -/
structure Race where
  sessions : List Session
deriving DecidableEq, Repr

/-- One `official_ranking` entry, fields read via `as_str`/`as_i64`. -/
structure OffEntry where
  p_id : JVal
  laps : Option Int
  gap : Option String
deriving DecidableEq, Repr

/-- One `pilots` value `{name}`. -/
structure PilotInfo where
  name : Option String
deriving DecidableEq, Repr

/-- The ingested document, restricted to the fields `main.rs` reads for
the ranking computation.  `raw_results` is kept untyped (an object of
objects of scalars) because the code indexes it with literal keys
(`"penaltys"`, `"zones"`) that the spec names differently.  A missing
`races`/`official_ranking` array behaves as the empty list. -/
structure RaceData where
  pilots : List (String × PilotInfo)
  races : List Race
  official_ranking : List OffEntry
  raw_results : List (String × List (String × JVal))
  metadata_slots : Option Int
deriving DecidableEq, Repr

/-- The `PilotoDisplay` record of `main.rs` (HashMaps as association
lists, most recent insert first). -/
structure PilotoDisplay where
  nome : String
  total_laps : Int
  penalties : Int
  zona : String
  gap : String
  sessions : Int
  best_time : String
  average_time : String
  is_overall_best : Bool
  best_slot_name : String
  laps_per_slot : List (String × String)
  times_per_slot : List (String × String)
deriving DecidableEq, Repr

/-- Association-list lookup (model of `HashMap::get` / JSON object
indexing). -/
def alookup : List (String × α) → String → Option α
  | [], _ => none
  | e :: r, k => if e.1 = k then some e.2 else alookup r k

/-- Association-list insert-or-replace (model of `HashMap::insert`). -/
def upsert (m : List (String × α)) (k : String) (v : α) : List (String × α) :=
  (k, v) :: m.filter fun e => e.1 ≠ k

-- ### The aggregation pipeline of `main` (lines 134-221 of `main.rs`)

/-- The slot-matching test of line 153:
`s_data["p_id"].to_string() == format!("\"{}\"", id) || s_data["p_id"].to_string() == *id`. -/
def matchesPilot (v : JVal) (id : String) : Bool :=
  jToString v == "\"" ++ id ++ "\"" || jToString v == id

/-- The per-pilot mutable state of the slot loop (lines 140-145). -/
structure AggSt where
  laps_map : List (String × String)
  times_map : List (String × String)
  total_voltas : Int
  melhor_tempo_piloto : ℚ
  best_slot_idx : Int
  sessions_count : Int
deriving DecidableEq, Repr

/-- Initial per-pilot state: `999.999` sentinel best, `best_slot_idx = 1`. -/
def initAgg : AggSt :=
  { laps_map := [], times_map := [], total_voltas := 0
  , melhor_tempo_piloto := sentinel, best_slot_idx := 1, sessions_count := 0 }

/-- Body of the slot loop for a matching slot (lines 154-163). -/
def matchBody (st : AggSt) (kv : String × SlotData) : AggSt :=
  let l := kv.2.laps.getD 0
  let t := kv.2.best.getD 0
  { laps_map := upsert st.laps_map kv.1 (intRepr l)
  , times_map := upsert st.times_map kv.1 (if 0 < t then fmt3 t else "---")
  , total_voltas := st.total_voltas + l
  , melhor_tempo_piloto :=
      if 0 < t ∧ t < st.melhor_tempo_piloto then t else st.melhor_tempo_piloto
  , best_slot_idx :=
      if 0 < t ∧ t < st.melhor_tempo_piloto then (parseI kv.1).getD 1
      else st.best_slot_idx
  , sessions_count := if 0 < l then st.sessions_count + 1 else st.sessions_count }

/-- One iteration of the slot loop (line 153 guard + body). -/
def slotStep (id : String) (st : AggSt) (kv : String × SlotData) : AggSt :=
  if matchesPilot kv.2.p_id id then matchBody st kv else st

/-- The races → sessions → slots visitation order of lines 147-152,
flattened. -/
def slotsStream (d : RaceData) : List (String × SlotData) :=
  d.races.flatMap fun r => r.sessions.flatMap fun s => s.slots

/-- The whole per-pilot aggregation loop (lines 140-170). -/
def aggregate (d : RaceData) (id : String) : AggSt :=
  (slotsStream d).foldl (slotStep id) initAgg

/-- `fenda_nomes` of line 136 (1-based lane names, `""` at index 0). -/
def fenda_nomes : List String :=
  ["", "Vermelha", "Branca", "Verde", "Laranja", "Azul", "Amarela", "Roxa", "Preta"]

/-- The `official_ranking` lookup of lines 179-180:
first entry whose `p_id.as_str()` equals the pilot id. -/
def findOff (d : RaceData) (id : String) : Option OffEntry :=
  d.official_ranking.find? fun x => ((jAsStr x.p_id).getD "") == id

/-- Construction of one `PilotoDisplay` (lines 139-201), except for the
`is_overall_best` flag which line 207 sets only after the loop. -/
def buildPilot (d : RaceData) (ip : String × PilotInfo) : PilotoDisplay :=
  let st := aggregate d ip.1
  let display_best :=
    if (900 : ℚ) ≤ st.melhor_tempo_piloto then "0.000" else fmt3 st.melhor_tempo_piloto
  let off := findOff d ip.1
  let final_laps : Int :=
    match off with
    | some e => e.laps.getD st.total_voltas
    | none => st.total_voltas
  let final_gap : String :=
    match off with
    | some e => e.gap.getD "0"
    | none => "0"
  let media : ℚ :=
    if 0 < st.sessions_count then qMk final_laps st.sessions_count.toNat else 0
  { nome := ip.2.name.getD "---"
  , total_laps := final_laps
  , penalties :=
      (((alookup d.raw_results "penaltys").bind fun m => alookup m ip.1).bind jAsI64).getD 0
  , zona :=
      (((alookup d.raw_results "zones").bind fun m => alookup m ip.1).bind jAsStr).getD "000"
  , gap := final_gap
  , sessions := st.sessions_count
  , best_time := display_best
  , average_time := fmtComma1 media
  , is_overall_best := false
  , best_slot_name :=
      if st.best_slot_idx < 0 then "---" else fenda_nomes.getD st.best_slot_idx.toNat "---"
  , laps_per_slot := st.laps_map
  , times_per_slot := st.times_map }

/-- The `ranking` vector right after the pilot loop (pilot encounter
order), before sorting and flagging. -/
def ranking0 (d : RaceData) : List PilotoDisplay :=
  d.pilots.map (buildPilot d)

/-- The running event-wide best (`best_lap_overall`, lines 135 and 171). -/
def best_lap_overall (d : RaceData) : ℚ :=
  d.pilots.foldl
    (fun b ip =>
      let m := (aggregate d ip.1).melhor_tempo_piloto
      if m < b ∧ 0 < m then m else b)
    (sentinel)

/-- `best_lap_str` of line 206, also the `overall_best_time_formatted`
value handed to the renderer at line 239. -/
def best_lap_str (d : RaceData) : String := fmt3 (best_lap_overall d)

/-- The flag update of line 207 applied to one record. -/
def applyFlag (d : RaceData) (p : PilotoDisplay) : PilotoDisplay :=
  if p.best_time == best_lap_str d ∧ best_lap_overall d < 900 then
    { p with is_overall_best := true }
  else p

/-- Line 205: `ranking.sort_by(|a, b| b.total_laps.cmp(&a.total_laps))`.
Rust's `sort_by` is a stable sort for this total preorder, hence
extensionally equal to insertion sort with the same comparison. -/
def sortRanking (l : List PilotoDisplay) : List PilotoDisplay :=
  l.insertionSort fun a b => b.total_laps ≤ a.total_laps

/-- The `ranking` vector as the renderer receives it: sorted (line 205),
then flagged (line 207). -/
def finalRanking (d : RaceData) : List PilotoDisplay :=
  (sortRanking (ranking0 d)).map (applyFlag d)

/-- One iteration of the per-slot-best loop (lines 212-219). -/
def btsStep (m : List (String × String)) (e : String × String) :
    List (String × String) :=
  match parseDec e.2 with
  | some t =>
    let current_best_str := (alookup m e.1).getD "999.999"
    let current_best := (parseDec current_best_str).getD (sentinel)
    if t < current_best ∧ 0 < t then upsert m e.1 (fmt3 t) else m
  | none => m

/-- `best_times_per_slot` (lines 210-221): fold over every pilot's
`times_per_slot` entries (the HashMap iteration order is unspecified in
Rust; the result is a pure running minimum per key, so any order yields
the same map up to entry order, and only lookups are ever proved about). -/
def best_times_per_slot (d : RaceData) : List (String × String) :=
  ((finalRanking d).flatMap fun p => p.times_per_slot).foldl btsStep []

/-- The `data_pontos` series of one pilot in `gerar_json_grafico`
(lines 78-84): lap counts for lanes `1..=slots_count`, parsed back out of
`laps_per_slot`, defaulting to 0. -/
def chartData (slots_count : Int) (p : PilotoDisplay) : List Int :=
  (List.range slots_count.toNat).map fun i =>
    ((alookup p.laps_per_slot (intRepr (Int.ofNat i + 1))).bind parseI).getD 0

/-- The chart series for all pilots as `main` invokes it at line 245:
ranking order, slot count `metadata.slots` defaulting to 6.  (The colors,
axis labels and JSON wrapping of `gerar_json_grafico` are presentation
packaging around these arrays and are not modelled.) -/
def chartSeries (d : RaceData) : List (List Int) :=
  (finalRanking d).map (chartData (d.metadata_slots.getD 6))

-- ### Declarative views of the aggregation (what the spec's sentences say)

/-- Minimum of a list of rationals (none when empty). -/
def listMin : List ℚ → Option ℚ
  | [] => none
  | t :: ts =>
    some (match listMin ts with
          | none => t
          | some m => min t m)

/-- Last element satisfying a predicate (the survivor of repeated
`HashMap::insert` under one key). -/
def lastWith (c : α → Bool) : List α → Option α
  | [] => none
  | x :: xs =>
    match lastWith c xs with
    | some y => some y
    | none => if c x then some x else none

/-- All slots (with their ids) whose occupant matches the pilot, in
visitation order. -/
def matchingSlots (d : RaceData) (id : String) : List (String × SlotData) :=
  (slotsStream d).filter fun kv => matchesPilot kv.2.p_id id

/-- Raw lap total: sum of lap counts over the matching slots. -/
def rawTotal (d : RaceData) (id : String) : Int :=
  ((matchingSlots d id).map fun kv => kv.2.laps.getD 0).sum

/-- Sessions-with-laps count: matching slots with a positive lap count. -/
def sessionsDecl (d : RaceData) (id : String) : Nat :=
  ((matchingSlots d id).filter fun kv => 0 < kv.2.laps.getD 0).length

/-- The strictly positive recorded best times over the matching slots. -/
def posTimes (d : RaceData) (id : String) : List ℚ :=
  ((matchingSlots d id).map fun kv => kv.2.best.getD 0).filter fun t => 0 < t

/-- The pilot's minimum strictly positive recorded time, if any. -/
def pilotMinPos (d : RaceData) (id : String) : Option ℚ :=
  listMin (posTimes d id)

/-- Every pilot's strictly positive recorded times. -/
def allPosTimes (d : RaceData) : List ℚ :=
  d.pilots.flatMap fun ip => posTimes d ip.1

/-- The event-wide minimum strictly positive recorded time, if any. -/
def globalMinPos (d : RaceData) : Option ℚ :=
  listMin (allPosTimes d)

/-- Final laps as the spec states them: the override entry's laps when an
entry matches (its own default being the raw total), else the raw total. -/
def finalLapsDecl (d : RaceData) (id : String) : Int :=
  match findOff d id with
  | some e => e.laps.getD (rawTotal d id)
  | none => rawTotal d id

/-- The formatted-time entry a matching slot contributes (line 159). -/
def timesEntry (kv : String × SlotData) : String :=
  if 0 < kv.2.best.getD 0 then fmt3 (kv.2.best.getD 0) else "---"

/-- The lap-count entry a matching slot contributes (line 158). -/
def lapsEntry (kv : String × SlotData) : String :=
  intRepr (kv.2.laps.getD 0)

-- ### listMin / lastWith / alookup lemmas

theorem listMin_eq_none {l : List ℚ} : listMin l = none ↔ l = [] := by
  cases l <;> simp [listMin]

theorem listMin_mem {l : List ℚ} {m : ℚ} (h : listMin l = some m) : m ∈ l := by
  induction l generalizing m with
  | nil => simp [listMin] at h
  | cons t ts ih =>
    rw [listMin] at h
    cases hts : listMin ts with
    | none => rw [hts] at h; simp_all
    | some m' =>
      rw [hts] at h
      simp only [Option.some_inj] at h
      rcases le_total t m' with hle | hle
      · rw [← h, min_eq_left hle]; exact List.mem_cons_self _ _
      · rw [← h, min_eq_right hle]; exact List.mem_cons_of_mem _ (ih hts)

theorem listMin_le {l : List ℚ} {m : ℚ} (h : listMin l = some m) :
    ∀ x ∈ l, m ≤ x := by
  induction l generalizing m with
  | nil => simp
  | cons t ts ih =>
    rw [listMin] at h
    intro x hx
    cases hts : listMin ts with
    | none =>
      rw [hts] at h
      have : ts = [] := listMin_eq_none.1 hts
      subst this
      simp only [List.mem_singleton] at hx
      simp_all
    | some m' =>
      rw [hts] at h
      simp only [Option.some_inj] at h
      rcases List.mem_cons.1 hx with rfl | hx'
      · rw [← h]; exact min_le_left _ _
      · calc m = t ⊓ m' := h.symm
          _ ≤ m' := min_le_right _ _
          _ ≤ x := ih hts x hx'

theorem listMin_append (l1 l2 : List ℚ) :
    listMin (l1 ++ l2) =
      match listMin l1, listMin l2 with
      | none, b => b
      | some x, none => some x
      | some x, some y => some (min x y) := by
  induction l1 with
  | nil => rw [List.nil_append]; cases h2 : listMin l2 <;> simp [listMin]
  | cons t ts ih =>
    rw [List.cons_append, listMin, ih, listMin]
    cases hts : listMin ts <;> cases h2 : listMin l2 <;> simp [min_assoc]

theorem alookup_filter_ne {α : Type _} (m : List (String × α)) (k s : String)
    (h : k ≠ s) : alookup (m.filter fun e => e.1 ≠ k) s = alookup m s := by
  induction m with
  | nil => rfl
  | cons e r ih =>
    by_cases he : e.1 = k
    · rw [List.filter_cons_of_neg (by simp [he]), ih, alookup,
        if_neg (by rw [he]; exact h)]
    · rw [List.filter_cons_of_pos (by simp [he]), alookup, alookup]
      split_ifs
      · rfl
      · exact ih

theorem alookup_upsert {α : Type _} (m : List (String × α)) (k v s) :
    alookup (upsert m k v) s = if k = s then some v else alookup m s := by
  rw [upsert, alookup]
  split_ifs with h
  · rfl
  · exact alookup_filter_ne m k s h

-- ### Relating the aggregation loop to the declarative views

theorem foldl_ite_filter {σ α : Type _} (f : σ → α → σ) (c : α → Bool)
    (st : σ) (l : List α) :
    l.foldl (fun s x => if c x then f s x else s) st = (l.filter c).foldl f st := by
  induction l generalizing st with
  | nil => rfl
  | cons x xs ih => by_cases h : c x <;> simp [h, ih]

theorem aggregate_eq (d : RaceData) (id : String) :
    aggregate d id = (matchingSlots d id).foldl matchBody initAgg :=
  foldl_ite_filter matchBody (fun kv => matchesPilot kv.2.p_id id) initAgg (slotsStream d)

theorem foldl_matchBody_total (ms : List (String × SlotData)) (st : AggSt) :
    (ms.foldl matchBody st).total_voltas =
      st.total_voltas + ((ms.map fun kv => kv.2.laps.getD 0).sum) := by
  induction ms generalizing st with
  | nil => simp
  | cons kv ms ih =>
    rw [List.foldl_cons, ih]
    simp [matchBody]
    ring

theorem foldl_matchBody_sessions (ms : List (String × SlotData)) (st : AggSt) :
    (ms.foldl matchBody st).sessions_count =
      st.sessions_count + ((ms.filter fun kv => 0 < kv.2.laps.getD 0).length : Int) := by
  induction ms generalizing st with
  | nil => simp
  | cons kv ms ih =>
    rw [List.foldl_cons, ih]
    by_cases h : 0 < kv.2.laps.getD 0
    · rw [List.filter_cons_of_pos (by simp [h])]
      simp [matchBody, h]
      omega
    · rw [List.filter_cons_of_neg (by simp [h])]
      simp [matchBody, h]

theorem foldl_matchBody_melhor (ms : List (String × SlotData)) (st : AggSt) :
    (ms.foldl matchBody st).melhor_tempo_piloto =
      (ms.map fun kv => kv.2.best.getD 0).foldl
        (fun b t => if 0 < t ∧ t < b then t else b) st.melhor_tempo_piloto := by
  induction ms generalizing st with
  | nil => rfl
  | cons kv ms ih =>
    rw [List.foldl_cons, ih, List.map_cons, List.foldl_cons]
    congr 1

theorem qfold_min (ts : List ℚ) (b : ℚ) :
    ts.foldl (fun b t => if 0 < t ∧ t < b then t else b) b =
      match listMin (ts.filter fun t => 0 < t) with
      | none => b
      | some m => min b m := by
  induction ts generalizing b with
  | nil => rfl
  | cons t ts ih =>
    rw [List.foldl_cons]
    by_cases hpos : 0 < t
    · rw [List.filter_cons_of_pos (by simp [hpos]), listMin]
      have hstep : (if 0 < t ∧ t < b then t else b) = min b t := by
        split_ifs with h
        · exact (min_eq_right h.2.le).symm
        · push_neg at h
          exact (min_eq_left (h hpos)).symm
      rw [hstep, ih]
      cases listMin (ts.filter fun t => 0 < t) <;> simp [min_assoc, min_comm t]
    · rw [List.filter_cons_of_neg (by simp [hpos]), if_neg (by tauto), ih]

theorem foldl_matchBody_map
    (proj : AggSt → List (String × String)) (g : String × SlotData → String)
    (hproj : ∀ st kv, proj (matchBody st kv) = upsert (proj st) kv.1 (g kv))
    (ms : List (String × SlotData)) (st : AggSt) (s : String) :
    alookup (proj (ms.foldl matchBody st)) s =
      match lastWith (fun kv => kv.1 == s) ms with
      | some kv => some (g kv)
      | none => alookup (proj st) s := by
  induction ms generalizing st with
  | nil => rfl
  | cons kv ms ih =>
    rw [List.foldl_cons, ih, lastWith]
    cases hl : lastWith (fun kv => kv.1 == s) ms with
    | some kv' => rfl
    | none =>
      rw [hproj, alookup_upsert]
      by_cases hk : kv.1 = s
      · rw [if_pos hk, if_pos (by simp [hk])]
      · rw [if_neg hk, if_neg (by simp [hk])]

theorem times_map_lookup (d : RaceData) (id s : String) :
    alookup (aggregate d id).times_map s =
      match lastWith (fun kv => kv.1 == s) (matchingSlots d id) with
      | some kv => some (timesEntry kv)
      | none => none := by
  rw [aggregate_eq,
    foldl_matchBody_map (fun st => st.times_map) timesEntry (fun _ _ => rfl)]
  cases lastWith (fun kv => kv.1 == s) (matchingSlots d id) <;> rfl

theorem laps_map_lookup (d : RaceData) (id s : String) :
    alookup (aggregate d id).laps_map s =
      match lastWith (fun kv => kv.1 == s) (matchingSlots d id) with
      | some kv => some (lapsEntry kv)
      | none => none := by
  rw [aggregate_eq,
    foldl_matchBody_map (fun st => st.laps_map) lapsEntry (fun _ _ => rfl)]
  cases lastWith (fun kv => kv.1 == s) (matchingSlots d id) <;> rfl

theorem total_voltas_eq (d : RaceData) (id : String) :
    (aggregate d id).total_voltas = rawTotal d id := by
  rw [aggregate_eq, foldl_matchBody_total, rawTotal]
  simp [initAgg]

theorem sessions_count_eq (d : RaceData) (id : String) :
    (aggregate d id).sessions_count = (sessionsDecl d id : Int) := by
  rw [aggregate_eq, foldl_matchBody_sessions, sessionsDecl]
  simp [initAgg]

theorem melhor_eq (d : RaceData) (id : String) :
    (aggregate d id).melhor_tempo_piloto =
      match pilotMinPos d id with
      | none => sentinel
      | some m => min (sentinel) m := by
  rw [aggregate_eq, foldl_matchBody_melhor, qfold_min]
  rfl

theorem melhor_pos (d : RaceData) (id : String) :
    0 < (aggregate d id).melhor_tempo_piloto := by
  rw [melhor_eq]
  cases hm : pilotMinPos d id with
  | none => exact sentinel_pos
  | some m =>
    have hmem := listMin_mem hm
    rw [posTimes] at hmem
    have := List.of_mem_filter hmem
    simp only [decide_eq_true_eq] at this
    simp only [lt_min_iff]
    exact ⟨sentinel_pos, this⟩

theorem melhor_le_sentinel (d : RaceData) (id : String) :
    (aggregate d id).melhor_tempo_piloto ≤ sentinel := by
  rw [melhor_eq]
  cases pilotMinPos d id with
  | none => exact le_refl _
  | some m => exact min_le_left _ _

theorem pilotMinPos_pos {d : RaceData} {id : String} {m : ℚ}
    (h : pilotMinPos d id = some m) : 0 < m := by
  rw [pilotMinPos] at h
  have hmem := listMin_mem h
  rw [posTimes] at hmem
  have := List.of_mem_filter hmem
  simpa using this

theorem melhor_eq_getD (d : RaceData) (id : String) :
    (aggregate d id).melhor_tempo_piloto =
      min (sentinel) ((pilotMinPos d id).getD (sentinel)) := by
  rw [melhor_eq]
  cases pilotMinPos d id <;> simp

theorem best_lap_overall_eq (d : RaceData) :
    best_lap_overall d =
      min (sentinel) ((globalMinPos d).getD (sentinel)) := by
  rw [best_lap_overall, globalMinPos, allPosTimes]
  have key :
      ∀ (ps : List (String × PilotInfo)) (b : ℚ), b ≤ sentinel →
        (ps.foldl
          (fun b ip =>
            let m := (aggregate d ip.1).melhor_tempo_piloto
            if m < b ∧ 0 < m then m else b) b) =
          min b ((listMin (ps.flatMap fun ip => posTimes d ip.1)).getD b) := by
    intro ps
    induction ps with
    | nil => intro b _; simp [listMin]
    | cons ip ps ih =>
      intro b hb
      rw [List.foldl_cons, List.flatMap_cons, listMin_append]
      have hstep :
          (if (aggregate d ip.1).melhor_tempo_piloto < b ∧
              0 < (aggregate d ip.1).melhor_tempo_piloto
           then (aggregate d ip.1).melhor_tempo_piloto else b) =
          min b ((pilotMinPos d ip.1).getD b) := by
        rw [melhor_eq_getD]
        cases hm : pilotMinPos d ip.1 with
        | none =>
          simp only [Option.getD_none, min_self]
          rw [if_neg]
          push_neg
          intro hlt
          exact absurd hb (not_le.2 (by simpa using hlt))
        | some mv =>
          have hmv : 0 < mv := pilotMinPos_pos hm
          simp only [Option.getD_some]
          rcases lt_or_le (min (sentinel) mv) b with hlt | hle
          · rw [if_pos ⟨hlt, lt_min sentinel_pos hmv⟩]
            have hmvT : mv < sentinel ∨ ¬ mv < sentinel := em _
            rcases le_total mv (sentinel) with h1 | h1
            · rw [min_eq_right h1] at hlt ⊢
              exact (min_eq_right hlt.le).symm
            · rw [min_eq_left h1] at hlt
              exact absurd hb (not_le.2 hlt)
          · rw [if_neg (by push_neg; intro hlt; exact absurd hlt (not_lt.2 hle))]
            rcases le_total mv (sentinel) with h1 | h1
            · rw [min_eq_right h1] at hle
              exact (min_eq_left hle).symm
            · exact (min_eq_left (hb.trans h1)).symm
      rw [hstep]
      have hb' : min b ((pilotMinPos d ip.1).getD b) ≤ sentinel :=
        le_trans (min_le_left _ _) hb
      rw [ih _ hb']
      cases hm : pilotMinPos d ip.1 with
      | none =>
        rw [pilotMinPos] at hm
        rw [hm]
        simp
      | some mv =>
        rw [pilotMinPos] at hm
        rw [hm]
        cases hr : listMin (ps.flatMap fun ip => posTimes d ip.1) <;>
          simp [min_assoc]
  rw [key d.pilots (sentinel) le_rfl]

theorem listMin_some_of_mem {l : List ℚ} {x : ℚ} (hx : x ∈ l) :
    ∃ g, listMin l = some g ∧ g ≤ x := by
  cases hl : listMin l with
  | none =>
    rw [listMin_eq_none] at hl
    subst hl
    simp at hx
  | some g => exact ⟨g, rfl, listMin_le hl x hx⟩

theorem globalMinPos_pos {d : RaceData} {g : ℚ} (h : globalMinPos d = some g) :
    0 < g := by
  rw [globalMinPos] at h
  have hmem := listMin_mem h
  rw [allPosTimes] at hmem
  obtain ⟨ip, _, hm⟩ := List.mem_flatMap.1 hmem
  rw [posTimes] at hm
  simpa using List.of_mem_filter hm

theorem global_le_pilot {d : RaceData} {id : String} {pi : PilotInfo} {m : ℚ}
    (hmem : (id, pi) ∈ d.pilots) (h : pilotMinPos d id = some m) :
    ∃ g, globalMinPos d = some g ∧ g ≤ m := by
  rw [pilotMinPos] at h
  have hm : m ∈ posTimes d id := listMin_mem h
  have : m ∈ allPosTimes d := by
    rw [allPosTimes]
    exact List.mem_flatMap.2 ⟨(id, pi), hmem, hm⟩
  exact listMin_some_of_mem this

theorem best_lap_overall_lt_900 {d : RaceData} :
    best_lap_overall d < 900 ↔
      ∃ g, globalMinPos d = some g ∧ g < 900 ∧ best_lap_overall d = g := by
  rw [best_lap_overall_eq]
  cases hg : globalMinPos d with
  | none =>
    simp only [Option.getD_none, min_self]
    constructor
    · intro h
      exact absurd h (not_lt.2 ge900_sentinel)
    · rintro ⟨g, hg', _⟩
      cases hg'
  | some g =>
    simp only [Option.getD_some]
    constructor
    · intro hlt
      have hglt : g < 900 := by
        rcases le_total g sentinel with h1 | h1
        · rw [min_eq_right h1] at hlt; exact hlt
        · rw [min_eq_left h1] at hlt
          exact absurd hlt (not_lt.2 ge900_sentinel)
      refine ⟨g, rfl, hglt, ?_⟩
      rw [min_eq_right (by linarith [ge900_sentinel] : g ≤ sentinel)]
    · rintro ⟨g', hg', hlt, heq⟩
      rw [Option.some_inj] at hg'
      subst hg'
      rw [min_eq_right (by linarith [ge900_sentinel] : g ≤ sentinel)]
      exact hlt

-- ### Flag characterization

theorem mem_ranking0 {d : RaceData} {q : PilotoDisplay} :
    q ∈ ranking0 d ↔ ∃ ip ∈ d.pilots, q = buildPilot d ip := by
  rw [ranking0, List.mem_map]
  constructor
  · rintro ⟨ip, h1, rfl⟩; exact ⟨ip, h1, rfl⟩
  · rintro ⟨ip, h1, rfl⟩; exact ⟨ip, h1, rfl⟩

theorem buildPilot_flag (d : RaceData) (ip : String × PilotInfo) :
    (buildPilot d ip).is_overall_best = false := rfl

theorem mem_finalRanking {d : RaceData} {p : PilotoDisplay} :
    p ∈ finalRanking d ↔ ∃ ip ∈ d.pilots, p = applyFlag d (buildPilot d ip) := by
  rw [finalRanking, List.mem_map]
  constructor
  · rintro ⟨q, hq, rfl⟩
    rw [sortRanking, List.mem_insertionSort] at hq
    obtain ⟨ip, hip, rfl⟩ := mem_ranking0.1 hq
    exact ⟨ip, hip, rfl⟩
  · rintro ⟨ip, hip, rfl⟩
    refine ⟨buildPilot d ip, ?_, rfl⟩
    rw [sortRanking, List.mem_insertionSort]
    exact mem_ranking0.2 ⟨ip, hip, rfl⟩

theorem applyFlag_best_time (d : RaceData) (p : PilotoDisplay) :
    (applyFlag d p).best_time = p.best_time := by
  rw [applyFlag]; split_ifs <;> rfl

theorem applyFlag_total_laps (d : RaceData) (p : PilotoDisplay) :
    (applyFlag d p).total_laps = p.total_laps := by
  rw [applyFlag]; split_ifs <;> rfl

theorem applyFlag_times_per_slot (d : RaceData) (p : PilotoDisplay) :
    (applyFlag d p).times_per_slot = p.times_per_slot := by
  rw [applyFlag]; split_ifs <;> rfl

theorem applyFlag_laps_per_slot (d : RaceData) (p : PilotoDisplay) :
    (applyFlag d p).laps_per_slot = p.laps_per_slot := by
  rw [applyFlag]; split_ifs <;> rfl

theorem applyFlag_average_time (d : RaceData) (p : PilotoDisplay) :
    (applyFlag d p).average_time = p.average_time := by
  rw [applyFlag]; split_ifs <;> rfl

theorem applyFlag_flag {d : RaceData} {p : PilotoDisplay}
    (h : p.is_overall_best = false) :
    (applyFlag d p).is_overall_best = true ↔
      p.best_time = best_lap_str d ∧ best_lap_overall d < 900 := by
  rw [applyFlag]
  split_ifs with hc
  · simpa using ⟨beq_iff_eq.mp hc.1, hc.2⟩
  · rw [h]
    simp only [Bool.false_eq_true, false_iff]
    intro hh
    exact hc ⟨beq_iff_eq.mpr hh.1, hh.2⟩

theorem best_time_eq (d : RaceData) (id : String) (pi : PilotInfo) :
    (buildPilot d (id, pi)).best_time =
      match pilotMinPos d id with
      | some m => if m < 900 then fmt3 m else "0.000"
      | none => "0.000" := by
  show (if (900 : ℚ) ≤ (aggregate d id).melhor_tempo_piloto then "0.000"
        else fmt3 (aggregate d id).melhor_tempo_piloto) = _
  rw [melhor_eq]
  cases hm : pilotMinPos d id with
  | none =>
    show (if (900 : ℚ) ≤ sentinel then "0.000" else fmt3 (sentinel)) = "0.000"
    rw [if_pos ge900_sentinel]
  | some m =>
    have hmpos : 0 < m := pilotMinPos_pos hm
    show (if (900 : ℚ) ≤ min (sentinel) m then "0.000"
          else fmt3 (min (sentinel) m)) =
        (if m < 900 then fmt3 m else "0.000")
    rcases lt_or_le m 900 with hlt | hle
    · have hmin : min (sentinel : ℚ) m = m :=
        min_eq_right (by linarith [ge900_sentinel])
      rw [hmin, if_neg (not_le.2 hlt), if_pos hlt]
    · have hmin : (900 : ℚ) ≤ min (sentinel) m :=
        le_min ge900_sentinel hle
      rw [if_pos hmin, if_neg (not_lt.2 hle)]

-- ### Sorting: order and stability

instance : IsTotal PilotoDisplay fun a b => b.total_laps ≤ a.total_laps :=
  ⟨fun _ _ => le_total _ _⟩

instance : IsTrans PilotoDisplay fun a b => b.total_laps ≤ a.total_laps :=
  ⟨fun _ _ _ hab hbc => le_trans hbc hab⟩

theorem sortRanking_sorted (l : List PilotoDisplay) :
    List.Pairwise (fun a b => b.total_laps ≤ a.total_laps) (sortRanking l) :=
  List.sorted_insertionSort _ l

theorem orderedInsert_filter_pos (v : Int) (a : PilotoDisplay)
    (l : List PilotoDisplay) (ha : a.total_laps = v) :
    (l.orderedInsert (fun a b => b.total_laps ≤ a.total_laps) a).filter
        (fun p => p.total_laps == v) =
      a :: l.filter fun p => p.total_laps == v := by
  induction l with
  | nil => simp [List.orderedInsert, ha]
  | cons b l ih =>
    rw [List.orderedInsert]
    split_ifs with hr
    · rw [List.filter_cons_of_pos (by simp [ha])]
    · have hbv : ¬ b.total_laps = v := by
        intro hbv
        exact hr (by rw [hbv, ← ha])
      rw [List.filter_cons_of_neg (by simp [hbv]), ih,
        List.filter_cons_of_neg (by simp [hbv])]

theorem orderedInsert_filter_neg (v : Int) (a : PilotoDisplay)
    (l : List PilotoDisplay) (ha : ¬ a.total_laps = v) :
    (l.orderedInsert (fun a b => b.total_laps ≤ a.total_laps) a).filter
        (fun p => p.total_laps == v) =
      l.filter fun p => p.total_laps == v := by
  induction l with
  | nil => simp [List.orderedInsert, ha]
  | cons b l ih =>
    rw [List.orderedInsert]
    split_ifs with hr
    · rw [List.filter_cons_of_neg (by simp [ha])]
    · by_cases hbv : b.total_laps = v
      · rw [List.filter_cons_of_pos (by simp [hbv]),
          List.filter_cons_of_pos (by simp [hbv]), ih]
      · rw [List.filter_cons_of_neg (by simp [hbv]),
          List.filter_cons_of_neg (by simp [hbv]), ih]

theorem sortRanking_filter (l : List PilotoDisplay) (v : Int) :
    (sortRanking l).filter (fun p => p.total_laps == v) =
      l.filter fun p => p.total_laps == v := by
  induction l with
  | nil => rfl
  | cons a l ih =>
    rw [sortRanking] at ih
    show ((l.insertionSort _).orderedInsert _ a).filter _ = _
    by_cases ha : a.total_laps = v
    · rw [orderedInsert_filter_pos v a _ ha, ih,
        List.filter_cons_of_pos (by simp [ha])]
    · rw [orderedInsert_filter_neg v a _ ha, ih,
        List.filter_cons_of_neg (by simp [ha])]

-- ### Field characterizations of the built records

theorem total_laps_eq (d : RaceData) (id : String) (pi : PilotInfo) :
    (buildPilot d (id, pi)).total_laps = finalLapsDecl d id := by
  rw [finalLapsDecl]
  show (match findOff d id with
        | some e => e.laps.getD (aggregate d id).total_voltas
        | none => (aggregate d id).total_voltas) = _
  rw [total_voltas_eq]

theorem sessions_eq (d : RaceData) (id : String) (pi : PilotInfo) :
    (buildPilot d (id, pi)).sessions = (sessionsDecl d id : Int) :=
  sessions_count_eq d id

theorem average_time_eq (d : RaceData) (id : String) (pi : PilotInfo) :
    (buildPilot d (id, pi)).average_time =
      fmtComma1 (if 0 < sessionsDecl d id then
        (finalLapsDecl d id : ℚ) / (sessionsDecl d id : ℚ) else 0) := by
  show fmtComma1
      (if 0 < (aggregate d id).sessions_count then
        qMk (match findOff d id with
          | some e => e.laps.getD (aggregate d id).total_voltas
          | none => (aggregate d id).total_voltas)
          (aggregate d id).sessions_count.toNat
       else 0) = _
  rw [sessions_count_eq, total_voltas_eq]
  congr 1
  rw [← finalLapsDecl]
  by_cases h : 0 < sessionsDecl d id
  · rw [if_pos (by exact_mod_cast h), if_pos h,
      qMk_eq_div _ _ (by simp; omega)]
    norm_cast
  · rw [if_neg (by exact_mod_cast h), if_neg h]

theorem global_le_pilotMin {d : RaceData} {id : String} {pi : PilotInfo}
    {m g : ℚ} (hmem : (id, pi) ∈ d.pilots) (hpm : pilotMinPos d id = some m)
    (hg : globalMinPos d = some g) : g ≤ m := by
  rw [pilotMinPos] at hpm
  have hm : m ∈ posTimes d id := listMin_mem hpm
  have hall : m ∈ allPosTimes d := by
    rw [allPosTimes]
    exact List.mem_flatMap.2 ⟨(id, pi), hmem, hm⟩
  exact listMin_le hg m hall

theorem fmt3_ne_zero {m : ℚ} (hm : (900 : ℚ) ≤ m) : fmt3 m ≠ "0.000" := by
  intro he
  have h1 := parseDec_fmt3 m
  rw [he] at h1
  have h2 : parseDec "0.000" = some 0 := by decide
  rw [h2] at h1
  simp only [Option.some_inj] at h1
  have h4 : ((roundHalfEven (1000 * m)).toNat : ℚ) = 0 := by
    rw [eq_comm, div_eq_iff (by norm_num : (1000 : ℚ) ≠ 0)] at h1
    linarith [h1]
  have h5 : (roundHalfEven (1000 * m)).toNat = 0 := by exact_mod_cast h4
  have h6 : (900000 : ℤ) ≤ roundHalfEven (1000 * m) := by
    calc (900000 : ℤ) ≤ ⌊(1000 : ℚ) * m⌋ := by
          rw [Int.le_floor]
          push_cast
          linarith
      _ ≤ _ := roundHalfEven_ge_floor _
  omega

-- ### Documents used to instantiate the claims on concrete inputs

/-- `32.500` as a kernel-evaluable rational. -/
def q325 : ℚ := ⟨65, 2, by norm_num, by norm_num⟩

/-- `31.800` as a kernel-evaluable rational. -/
def q318 : ℚ := ⟨159, 5, by norm_num, by norm_num⟩

/-- The spec's §8 scenario: pilot A occupies slot 1 (10 laps, 32.500) and
slot 2 (8 laps, 31.800); pilot B occupies slot 1 (12 laps, 33.000); no
official-ranking entries. -/
def dS : RaceData :=
  { pilots := [("A", ⟨some "Pilot A"⟩), ("B", ⟨some "Pilot B"⟩)]
  , races :=
      [⟨[⟨[("1", ⟨.jstr "A", some 10, some q325⟩)]⟩,
         ⟨[("1", ⟨.jstr "B", some 12, some 33⟩),
           ("2", ⟨.jstr "A", some 8, some q318⟩)]⟩]⟩]
  , official_ranking := []
  , raw_results := []
  , metadata_slots := none }

/-- A document with an official-ranking override for pilot A. -/
def dW1 : RaceData :=
  { pilots := [("A", ⟨some "Alice"⟩)]
  , races := [⟨[⟨[("1", ⟨.jstr "A", some 7, some 30⟩)]⟩]⟩]
  , official_ranking := [⟨.jstr "A", some 42, some "1.5"⟩]
  , raw_results := []
  , metadata_slots := none }

/-- A document whose only recorded best time is `950.0` (positive but at
or above the `900.0` display threshold). -/
def dC2 : RaceData :=
  { pilots := [("A", ⟨some "Alice"⟩)]
  , races := [⟨[⟨[("1", ⟨.jstr "A", some 5, some 950⟩)]⟩]⟩]
  , official_ranking := []
  , raw_results := []
  , metadata_slots := none }

/-- A document with laps but no recorded (positive) time at all. -/
def dW10 : RaceData :=
  { pilots := [("A", ⟨some "Alice"⟩)]
  , races := [⟨[⟨[("1", ⟨.jstr "A", some 3, none⟩)]⟩]⟩]
  , official_ranking := []
  , raw_results := []
  , metadata_slots := none }

/-- A document whose `raw_results` uses the spec's key `penalties`
(and an empty `zones` object). -/
def dC8 : RaceData :=
  { pilots := [("A", ⟨some "Alice"⟩)]
  , races := []
  , official_ranking := []
  , raw_results := [("penalties", [("A", .jint 5)]), ("zones", [])]
  , metadata_slots := none }

/-- A document whose `raw_results` uses the key the code actually reads
(`penaltys`) plus a zone entry. -/
def dW8 : RaceData :=
  { pilots := [("A", ⟨some "Alice"⟩)]
  , races := []
  , official_ranking := []
  , raw_results := [("penaltys", [("A", .jint 7)]), ("zones", [("A", .jstr "Z1")])]
  , metadata_slots := none }

/-- Modelled from the spec (§6/C8 wording): the penalties value read from
the `raw_results.penalties` key, defaulting to 0 when absent.  The code
reads the key `penaltys` instead; this definition follows the spec's words
for comparison. -/
def specPenalties (d : RaceData) (id : String) : Int :=
  (((alookup d.raw_results "penalties").bind fun m => alookup m id).bind jAsI64).getD 0

-- ### The claims

/-- C1: for every pilot, the final total laps equals the laps value of the
official-ranking entry whose pilot id exactly matches (when such an entry
exists), and otherwise the sum of the lap counts of every matching slot in
every session of every race. -/
theorem claim_C1_total_laps (d : RaceData) (id : String) (pi : PilotInfo) :
    (∀ e, findOff d id = some e → ∀ L, e.laps = some L →
      (buildPilot d (id, pi)).total_laps = L)
    ∧ (findOff d id = none →
      (buildPilot d (id, pi)).total_laps = rawTotal d id) := by
  constructor
  · intro e he L hL
    rw [total_laps_eq, finalLapsDecl, he]
    show e.laps.getD (rawTotal d id) = L
    rw [hL]
    rfl
  · intro he
    rw [total_laps_eq, finalLapsDecl, he]

theorem claim_C1_total_laps_witness :
    (findOff dW1 "A" = some ⟨JVal.jstr "A", some 42, some "1.5"⟩
      ∧ (buildPilot dW1 ("A", ⟨some "Alice"⟩)).total_laps = 42)
    ∧ (findOff dS "A" = none
      ∧ (buildPilot dS ("A", ⟨some "Pilot A"⟩)).total_laps = rawTotal dS "A") :=
  ⟨⟨by decide,
    (claim_C1_total_laps dW1 "A" ⟨some "Alice"⟩).1
      ⟨JVal.jstr "A", some 42, some "1.5"⟩ (by decide) 42 (by decide)⟩,
   ⟨by decide,
    (claim_C1_total_laps dS "A" ⟨some "Pilot A"⟩).2 (by decide)⟩⟩

/-- C2 (counterexample): with a single recorded time of `950.0`, the
minimum strictly positive recorded time is `950`, which formats to
`"950.000"`, yet the displayed best-time string is `"0.000"` — the claim's
"minimum of all strictly positive recorded best times, formatted to 3
decimals" is false as stated. -/
theorem claim_C2_counterexample :
    (finalRanking dC2).map (fun p => p.best_time) = ["0.000"]
    ∧ pilotMinPos dC2 "A" = some 950
    ∧ fmt3 950 = "950.000"
    ∧ ("0.000" : String) ≠ "950.000" := by decide

/-- C2 (amended): the displayed best-time string is the minimum strictly
positive recorded time formatted to 3 decimals only when that minimum is
below `900.0`; when there is no positive time, or the minimum is `900.0`
or more, the display is `"0.000"`.  A pilot with no strictly positive
recorded time is never flagged overall-best provided the reported
overall-best string is not itself `"0.000"`. -/
theorem claim_C2_best_time_amended (d : RaceData) (id : String) (pi : PilotInfo) :
    ((buildPilot d (id, pi)).best_time =
      match pilotMinPos d id with
      | some m => if m < 900 then fmt3 m else "0.000"
      | none => "0.000")
    ∧ (pilotMinPos d id = none → best_lap_str d ≠ "0.000" →
        (applyFlag d (buildPilot d (id, pi))).is_overall_best = false) := by
  refine ⟨best_time_eq d id pi, ?_⟩
  intro hnone hstr
  rw [applyFlag]
  split_ifs with hc
  · exfalso
    have hbt : (buildPilot d (id, pi)).best_time = "0.000" := by
      rw [best_time_eq, hnone]
    exact hstr (by rw [← beq_iff_eq.mp hc.1, hbt])
  · rfl

theorem claim_C2_best_time_amended_witness :
    pilotMinPos dW10 "A" = none ∧ best_lap_str dW10 ≠ "0.000" ∧
      (applyFlag dW10 (buildPilot dW10 ("A", ⟨some "Alice"⟩))).is_overall_best = false :=
  ⟨by decide, by decide,
   (claim_C2_best_time_amended dW10 "A" ⟨some "Alice"⟩).2 (by decide) (by decide)⟩

/-- C3: a pilot is flagged overall-best iff their displayed best-time
string equals the event-wide minimum valid (strictly positive) best time,
formatted; ties are all flagged, and whenever any pilot is flagged the
reported overall-best string is that shared minimum, formatted. -/
theorem claim_C3_overall_best (d : RaceData) :
    (∀ p ∈ finalRanking d,
      (p.is_overall_best = true ↔
        ∃ m, globalMinPos d = some m ∧ p.best_time = fmt3 m))
    ∧ (∀ m, globalMinPos d = some m →
        (∃ p ∈ finalRanking d, p.is_overall_best = true) →
        best_lap_str d = fmt3 m) := by
  have hmain : ∀ p ∈ finalRanking d,
      (p.is_overall_best = true ↔
        ∃ m, globalMinPos d = some m ∧ p.best_time = fmt3 m) := by
    intro p hp
    obtain ⟨ip, hip, rfl⟩ := mem_finalRanking.1 hp
    obtain ⟨id, pi⟩ := ip
    rw [applyFlag_flag (buildPilot_flag d (id, pi)), applyFlag_best_time]
    constructor
    · rintro ⟨hbt, hblt⟩
      obtain ⟨g, hg, _, hbeq⟩ := best_lap_overall_lt_900.1 hblt
      refine ⟨g, hg, ?_⟩
      rw [hbt, best_lap_str, hbeq]
    · rintro ⟨m, hm, hbt⟩
      rcases lt_or_le m 900 with hlt | hge
      · have hb : best_lap_overall d = m := by
          rw [best_lap_overall_eq, hm]
          simp only [Option.getD_some]
          exact min_eq_right (by linarith [ge900_sentinel])
        exact ⟨by rw [hbt, best_lap_str, hb], by rw [hb]; exact hlt⟩
      · exfalso
        rw [best_time_eq] at hbt
        cases hpm : pilotMinPos d id with
        | none =>
          rw [hpm] at hbt
          exact fmt3_ne_zero hge hbt.symm
        | some pm =>
          rw [hpm] at hbt
          change (if pm < 900 then fmt3 pm else "0.000") = fmt3 m at hbt
          by_cases hpmlt : pm < 900
          · rw [if_pos hpmlt] at hbt
            have hle : m ≤ pm := global_le_pilotMin hip hpm hm
            linarith
          · rw [if_neg hpmlt] at hbt
            exact fmt3_ne_zero hge hbt.symm
  refine ⟨hmain, ?_⟩
  rintro m hm ⟨p, hp, hflag⟩
  obtain ⟨m', hm', hbt⟩ := (hmain p hp).1 hflag
  rw [hm] at hm'
  obtain ⟨ip, hip, rfl⟩ := mem_finalRanking.1 hp
  obtain ⟨id, pi⟩ := ip
  rw [applyFlag_flag (buildPilot_flag d (id, pi))] at hflag
  obtain ⟨hbt2, hblt⟩ := hflag
  obtain ⟨g, hg, _, hbeq⟩ := best_lap_overall_lt_900.1 hblt
  rw [hm, Option.some_inj] at hg
  rw [best_lap_str, hbeq, hg]

theorem claim_C3_overall_best_witness :
    globalMinPos dS = some q318 ∧ best_lap_str dS = fmt3 q318 :=
  ⟨by decide, (claim_C3_overall_best dS).2 q318 (by decide) (by decide)⟩

/-- C4: the final ranking is non-increasing in final total laps, and
pilots with equal totals keep their original encounter order (the records
in the stable positions only differ by the flag update, which line 207
applies after the sort). -/
theorem claim_C4_ranking_order (d : RaceData) :
    List.Pairwise (fun a b => b.total_laps ≤ a.total_laps) (finalRanking d)
    ∧ ∀ v : Int,
      (finalRanking d).filter (fun p => p.total_laps == v) =
        ((ranking0 d).filter fun p => p.total_laps == v).map (applyFlag d) := by
  constructor
  · rw [finalRanking]
    refine List.Pairwise.map _ ?_ (sortRanking_sorted (ranking0 d))
    intro a b h
    rw [applyFlag_total_laps, applyFlag_total_laps]
    exact h
  · intro v
    rw [finalRanking, ← sortRanking_filter (ranking0 d) v, List.filter_map]
    congr 1
    apply List.filter_congr
    intro p _
    simp [Function.comp, applyFlag_total_laps]

/-- C6: for every pilot the average laps/session is the final total laps
divided by the sessions-with-laps count when that count is positive, 0
otherwise, formatted to one decimal with a comma separator. -/
theorem claim_C6_average (d : RaceData) (id : String) (pi : PilotInfo) :
    (buildPilot d (id, pi)).average_time =
      fmtComma1 (if 0 < sessionsDecl d id then
        (finalLapsDecl d id : ℚ) / (sessionsDecl d id : ℚ) else 0) :=
  average_time_eq d id pi

/-- C8 (counterexample): the code reads `raw_results.penaltys`, not the
spec's `raw_results.penalties`: on a document carrying the entry under
`penalties` the code yields 0 where the claim prescribes 5; and the zone
default is `"000"`, not one of the documented string defaults. -/
theorem claim_C8_counterexample :
    (buildPilot dC8 ("A", ⟨some "Alice"⟩)).penalties = 0
    ∧ specPenalties dC8 "A" = 5
    ∧ (0 : Int) ≠ 5
    ∧ (buildPilot dC8 ("A", ⟨some "Alice"⟩)).zona = "000" := by decide

/-- C8 (amended): the penalties field equals the integer stored under the
pilot's id in `raw_results.penaltys` (0 when absent), and the zone field
equals the string stored under the pilot's id in `raw_results.zones`
(`"000"` when absent). -/
theorem claim_C8_raw_results_amended (d : RaceData) (id : String) (pi : PilotInfo) :
    (∀ v : Int,
      ((alookup d.raw_results "penaltys").bind fun m => alookup m id) = some (.jint v) →
      (buildPilot d (id, pi)).penalties = v)
    ∧ (((alookup d.raw_results "penaltys").bind fun m => alookup m id) = none →
      (buildPilot d (id, pi)).penalties = 0)
    ∧ (∀ z : String,
      ((alookup d.raw_results "zones").bind fun m => alookup m id) = some (.jstr z) →
      (buildPilot d (id, pi)).zona = z)
    ∧ (((alookup d.raw_results "zones").bind fun m => alookup m id) = none →
      (buildPilot d (id, pi)).zona = "000") := by
  refine ⟨?_, ?_, ?_, ?_⟩
  · intro v hv
    show ((((alookup d.raw_results "penaltys").bind fun m => alookup m id).bind jAsI64).getD 0) = v
    rw [hv]
    rfl
  · intro hv
    show ((((alookup d.raw_results "penaltys").bind fun m => alookup m id).bind jAsI64).getD 0) = 0
    rw [hv]
    rfl
  · intro z hz
    show ((((alookup d.raw_results "zones").bind fun m => alookup m id).bind jAsStr).getD "000") = z
    rw [hz]
    rfl
  · intro hz
    show ((((alookup d.raw_results "zones").bind fun m => alookup m id).bind jAsStr).getD "000") = "000"
    rw [hz]
    rfl

theorem claim_C8_raw_results_amended_witness :
    ((alookup dW8.raw_results "penaltys").bind fun m => alookup m "A") = some (.jint 7)
    ∧ (buildPilot dW8 ("A", ⟨some "Alice"⟩)).penalties = 7
    ∧ ((alookup dW8.raw_results "zones").bind fun m => alookup m "A") = some (.jstr "Z1")
    ∧ (buildPilot dW8 ("A", ⟨some "Alice"⟩)).zona = "Z1" :=
  ⟨by decide,
   (claim_C8_raw_results_amended dW8 "A" ⟨some "Alice"⟩).1 7 (by decide),
   by decide,
   (claim_C8_raw_results_amended dW8 "A" ⟨some "Alice"⟩).2.2.1 "Z1" (by decide)⟩

/-- C9: the §8 scenario evaluates exactly as the spec expects: totals 18
and 12, ranking [A, B], overall best `"31.800"` with only A flagged,
per-slot bests `{1 ↦ "32.500", 2 ↦ "31.800"}` and nothing else, and A's
average formatted `"9,0"`. -/
theorem claim_C9_scenario :
    (finalRanking dS).map (fun p => p.nome) = ["Pilot A", "Pilot B"]
    ∧ (finalRanking dS).map (fun p => p.total_laps) = [18, 12]
    ∧ best_lap_str dS = "31.800"
    ∧ (finalRanking dS).map (fun p => p.is_overall_best) = [true, false]
    ∧ (finalRanking dS).map (fun p => p.best_time) = ["31.800", "33.000"]
    ∧ alookup (best_times_per_slot dS) "1" = some "32.500"
    ∧ alookup (best_times_per_slot dS) "2" = some "31.800"
    ∧ (best_times_per_slot dS).length = 2
    ∧ (finalRanking dS).map (fun p => p.average_time) = ["9,0", "12,0"] := by
  decide

/-- C10: when no pilot records any strictly positive time, the rendered
overall-best string (`overall_best_time_formatted`, line 239) is the
sentinel `"999.999"`, and no pilot is flagged overall-best. -/
theorem claim_C10_sentinel_leak (d : RaceData) (h : globalMinPos d = none) :
    best_lap_str d = "999.999" ∧ ∀ p ∈ finalRanking d, p.is_overall_best = false := by
  have hb : best_lap_overall d = sentinel := by
    rw [best_lap_overall_eq, h]
    simp
  constructor
  · rw [best_lap_str, hb]
    decide
  · intro p hp
    obtain ⟨ip, hip, rfl⟩ := mem_finalRanking.1 hp
    rw [applyFlag]
    split_ifs with hc
    · exfalso
      have h2 := hc.2
      rw [hb] at h2
      exact absurd h2 (not_lt.2 ge900_sentinel)
    · rfl

theorem claim_C10_sentinel_leak_witness :
    globalMinPos dW10 = none ∧ best_lap_str dW10 = "999.999" :=
  ⟨by decide, (claim_C10_sentinel_leak dW10 (by decide)).1⟩

/-- C7: each pilot's chart series has length equal to the declared slot
count (default 6 when `metadata.slots` is absent, and taken non-negative),
and the entry for lane `i + 1` is the pilot's recorded lap count for that
slot id (the per-slot lap record, i.e. the most recently visited matching
slot), or 0 when the pilot has none. -/
theorem claim_C7_chart_series (d : RaceData) (id : String) (pi : PilotInfo)
    (hN : 0 ≤ d.metadata_slots.getD 6) :
    ((chartData (d.metadata_slots.getD 6) (applyFlag d (buildPilot d (id, pi)))).length : Int) =
      d.metadata_slots.getD 6
    ∧ ∀ i : Nat, i < (d.metadata_slots.getD 6).toNat →
      (chartData (d.metadata_slots.getD 6) (applyFlag d (buildPilot d (id, pi))))[i]? =
        some (match lastWith (fun kv => kv.1 == intRepr (Int.ofNat i + 1)) (matchingSlots d id) with
              | some kv => kv.2.laps.getD 0
              | none => 0) := by
  constructor
  · rw [chartData, List.length_map, List.length_range]
    exact Int.toNat_of_nonneg hN
  · intro i hi
    rw [chartData, List.getElem?_map, List.getElem?_range hi]
    simp only [Option.map_some']
    rw [applyFlag_laps_per_slot,
      show (buildPilot d (id, pi)).laps_per_slot = (aggregate d id).laps_map from rfl,
      laps_map_lookup]
    cases lastWith (fun kv => kv.1 == intRepr (Int.ofNat i + 1)) (matchingSlots d id) with
    | some kv => simp [lapsEntry, parseI_intRepr]
    | none => simp

theorem claim_C7_chart_series_witness :
    (0 ≤ dS.metadata_slots.getD 6
      ∧ ((chartData (dS.metadata_slots.getD 6)
          (applyFlag dS (buildPilot dS ("A", ⟨some "Pilot A"⟩)))).length : Int) =
        dS.metadata_slots.getD 6)
    ∧ ((0 : Nat) < (dS.metadata_slots.getD 6).toNat
      ∧ (chartData (dS.metadata_slots.getD 6)
          (applyFlag dS (buildPilot dS ("A", ⟨some "Pilot A"⟩))))[0]? =
        some (match lastWith (fun kv => kv.1 == intRepr (Int.ofNat 0 + 1)) (matchingSlots dS "A") with
              | some kv => kv.2.laps.getD 0
              | none => 0)) :=
  ⟨⟨by decide, (claim_C7_chart_series dS "A" ⟨some "Pilot A"⟩ (by decide)).1⟩,
   ⟨by decide, (claim_C7_chart_series dS "A" ⟨some "Pilot A"⟩ (by decide)).2 0 (by decide)⟩⟩

-- ### C5: the per-slot-best computation

/-- The per-key update the per-slot-best loop applies to the current entry
of one slot (lines 213-218 of `main.rs`, restricted to one key). -/
def stepS (cur : Option String) (v : String) : Option String :=
  match parseDec v with
  | some t =>
    let current_best_str := cur.getD "999.999"
    let current_best := (parseDec current_best_str).getD sentinel
    if t < current_best ∧ 0 < t then some (fmt3 t) else cur
  | none => cur

/-- The abstract (value-level) update corresponding to `stepS`. -/
def qstep (o : Option ℚ) (t : ℚ) : Option ℚ :=
  if t < o.getD sentinel ∧ 0 < t then some t else o

/-- The stored per-slot formatted entries of the pilots, for one slot id,
parsed and restricted to strictly positive values (what the amended
claim's minimum ranges over). -/
def slotEntryVals (d : RaceData) (s : String) : List ℚ :=
  ((finalRanking d).filterMap fun p =>
    (alookup p.times_per_slot s).bind parseDec).filter fun t => 0 < t

/-- The strictly positive recorded times of all pilots for one slot id
(what the original claim's minimum ranges over). -/
def slotRecordedPos (d : RaceData) (s : String) : List ℚ :=
  (d.pilots.flatMap fun ip =>
    ((matchingSlots d ip.1).filter fun kv => kv.1 == s).map fun kv =>
      kv.2.best.getD 0).filter fun t => 0 < t

theorem alookup_btsStep_ne {m : List (String × String)} {e : String × String}
    {s : String} (h : ¬ e.1 = s) : alookup (btsStep m e) s = alookup m s := by
  rw [btsStep]
  cases parseDec e.2 with
  | none => rfl
  | some t =>
    simp only []
    split_ifs with hc
    · rw [alookup_upsert, if_neg h]
    · rfl

theorem alookup_btsStep_eq {m : List (String × String)} {e : String × String}
    {s : String} (h : e.1 = s) : alookup (btsStep m e) s = stepS (alookup m s) e.2 := by
  rw [btsStep, stepS, ← h]
  cases parseDec e.2 with
  | none => rfl
  | some t =>
    simp only []
    split_ifs with hc
    · rw [alookup_upsert, if_pos rfl]
    · rfl

theorem foldl_btsStep_proj (es : List (String × String))
    (m : List (String × String)) (s : String) :
    alookup (es.foldl btsStep m) s =
      ((es.filter fun e => e.1 == s).map Prod.snd).foldl stepS (alookup m s) := by
  induction es generalizing m with
  | nil => rfl
  | cons e es ih =>
    rw [List.foldl_cons, ih]
    by_cases h : e.1 = s
    · rw [List.filter_cons_of_pos (by simp [h]), List.map_cons, List.foldl_cons,
        alookup_btsStep_eq h]
    · rw [List.filter_cons_of_neg (by simp [h]), alookup_btsStep_ne h]

theorem qstep_pos {o : Option ℚ} {t : ℚ} (h1 : t < o.getD sentinel) (h2 : 0 < t) :
    qstep o t = some t := by
  rw [qstep, if_pos ⟨h1, h2⟩]

theorem qstep_neg {o : Option ℚ} {t : ℚ} (h : ¬ (t < o.getD sentinel ∧ 0 < t)) :
    qstep o t = o := by
  rw [qstep, if_neg h]

theorem foldl_stepS_qstep :
    ∀ (vs : List String),
      (∀ v ∈ vs, v = "---" ∨ ∃ t : ℚ, 0 < t ∧ v = fmt3 t) →
      ∀ (o : Option ℚ),
        (∀ m, o = some m → (∃ k : ℕ, m = (k : ℚ) / 1000) ∧ 0 < m ∧ m < sentinel) →
        vs.foldl stepS (o.map fmt3) = ((vs.filterMap parseDec).foldl qstep o).map fmt3 := by
  intro vs
  induction vs with
  | nil => intro _ o _; rfl
  | cons v vs ih =>
    intro hv o ho
    have hcb : stepS (o.map fmt3) v =
        match parseDec v with
        | some t => if t < o.getD sentinel ∧ 0 < t then some (fmt3 t) else o.map fmt3
        | none => o.map fmt3 := by
      rw [stepS]
      cases parseDec v with
      | none => rfl
      | some t =>
        simp only []
        have hcur : (parseDec ((o.map fmt3).getD "999.999")).getD sentinel =
            o.getD sentinel := by
          cases hoe : o with
          | none => decide
          | some m =>
            obtain ⟨⟨k, hk⟩, _, _⟩ := ho m hoe
            simp only [Option.map_some', Option.getD_some]
            rw [hk, parseDec_fmt3_thousandth]
            rfl
        rw [hcur]
    rcases hv v (by simp) with hdash | ⟨t0, ht0, hfmt⟩
    · subst hdash
      have hpd : parseDec "---" = none := by decide
      have hcb2 : stepS (o.map fmt3) "---" = o.map fmt3 := by rw [hcb, hpd]
      rw [List.foldl_cons, hcb2, List.filterMap_cons_none hpd]
      exact ih (fun w hw => hv w (by simp [hw])) o ho
    · subst hfmt
      have hpd := parseDec_fmt3 t0
      set tp : ℚ := (((roundHalfEven (1000 * t0)).toNat : ℕ) : ℚ) / 1000 with htp
      have hcb2 : stepS (o.map fmt3) (fmt3 t0) =
          if tp < o.getD sentinel ∧ 0 < tp then some (fmt3 tp) else o.map fmt3 := by
        rw [hcb, hpd]
      rw [List.foldl_cons, hcb2, List.filterMap_cons_some hpd]
      by_cases hcond : tp < o.getD sentinel ∧ 0 < tp
      · rw [if_pos hcond, List.foldl_cons, qstep_pos hcond.1 hcond.2]
        have hsw : some (fmt3 tp) = (some tp).map fmt3 := rfl
        rw [hsw]
        refine ih (fun w hw => hv w (by simp [hw])) (some tp) ?_
        intro m hm
        rw [Option.some_inj] at hm
        subst hm
        refine ⟨⟨(roundHalfEven (1000 * t0)).toNat, rfl⟩, hcond.2, ?_⟩
        rcases ho' : o with _ | m'
        · rw [ho'] at hcond
          exact hcond.1
        · obtain ⟨_, _, hlt⟩ := ho m' ho'
          rw [ho'] at hcond
          exact lt_trans hcond.1 hlt
      · rw [if_neg hcond, List.foldl_cons, qstep_neg hcond]
        exact ih (fun w hw => hv w (by simp [hw])) o ho


theorem qstep_none_pos {t : ℚ} (h1 : t < sentinel) (h2 : 0 < t) :
    qstep none t = some t := by
  rw [qstep]
  simp only [Option.getD_none]
  rw [if_pos ⟨h1, h2⟩]

theorem qstep_none_neg {t : ℚ} (h1 : ¬ t < sentinel) : qstep none t = none := by
  rw [qstep]
  simp only [Option.getD_none]
  rw [if_neg fun hc => h1 hc.1]

theorem qstep_some_pos {c t : ℚ} (h1 : t < c) (h2 : 0 < t) :
    qstep (some c) t = some t := by
  rw [qstep]
  simp only [Option.getD_some]
  rw [if_pos ⟨h1, h2⟩]

theorem qstep_some_neg {c t : ℚ} (h1 : ¬ t < c) : qstep (some c) t = some c := by
  rw [qstep]
  simp only [Option.getD_some]
  rw [if_neg fun hc => h1 hc.1]

theorem foldl_qstep_min :
    ∀ (ts : List ℚ) (o : Option ℚ), (∀ m, o = some m → 0 < m ∧ m < sentinel) →
      ts.foldl qstep o =
        match o, listMin (ts.filter fun t => 0 < t) with
        | none, none => none
        | none, some m => if m < sentinel then some m else none
        | some c, none => some c
        | some c, some m => some (min c m) := by
  intro ts
  induction ts with
  | nil => intro o _; cases o <;> rfl
  | cons t ts ih =>
    intro o ho
    by_cases hpos : 0 < t
    · rw [List.filter_cons_of_pos (by simp [hpos]), listMin, List.foldl_cons]
      cases o with
      | none =>
        by_cases hts : t < sentinel
        · have hgood : ∀ m, some t = some m → 0 < m ∧ m < sentinel := by
            rintro m hm
            rw [Option.some_inj] at hm
            subst hm
            exact ⟨hpos, hts⟩
          rw [qstep_none_pos hts hpos, ih (some t) hgood]
          cases hP : listMin (ts.filter fun t => 0 < t) with
          | none =>
            show some t = if t < sentinel then some t else none
            rw [if_pos hts]
          | some m' =>
            show some (min t m') =
              if min t m' < sentinel then some (min t m') else none
            rw [if_pos (lt_of_le_of_lt (min_le_left t m') hts)]
        · rw [qstep_none_neg hts, ih none (by rintro m hm; cases hm)]
          cases hP : listMin (ts.filter fun t => 0 < t) with
          | none =>
            show (none : Option ℚ) = if t < sentinel then some t else none
            rw [if_neg hts]
          | some m' =>
            show (if m' < sentinel then some m' else none) =
              if min t m' < sentinel then some (min t m') else none
            rcases lt_or_le m' sentinel with h2 | h2
            · have hmm : min t m' = m' := min_eq_right (le_trans h2.le (not_lt.1 hts))
              rw [hmm]
            · rw [if_neg (not_lt.2 h2), if_neg (not_lt.2 (le_min (not_lt.1 hts) h2))]
      | some c =>
        obtain ⟨hc0, hcs⟩ := ho c rfl
        by_cases htc : t < c
        · have hgood : ∀ m, some t = some m → 0 < m ∧ m < sentinel := by
            rintro m hm
            rw [Option.some_inj] at hm
            subst hm
            exact ⟨hpos, lt_trans htc hcs⟩
          rw [qstep_some_pos htc hpos, ih (some t) hgood]
          cases hP : listMin (ts.filter fun t => 0 < t) with
          | none =>
            show some t = some (min c t)
            rw [min_eq_right htc.le]
          | some m' =>
            show some (min t m') = some (min c (min t m'))
            rw [← min_assoc, min_eq_right htc.le]
        · rw [qstep_some_neg htc, ih (some c) ho]
          cases hP : listMin (ts.filter fun t => 0 < t) with
          | none =>
            show some c = some (min c t)
            rw [min_eq_left (not_lt.1 htc)]
          | some m' =>
            show some (min c m') = some (min c (min t m'))
            rw [← min_assoc, min_eq_left (not_lt.1 htc)]
    · rw [List.filter_cons_of_neg (by simp [hpos]), List.foldl_cons,
        qstep_neg (fun hc => hpos hc.2)]
      exact ih o ho

theorem foldl_matchBody_times_mem (ms : List (String × SlotData)) (st : AggSt)
    (h : ∀ e ∈ st.times_map, e.2 = "---" ∨ ∃ t : ℚ, 0 < t ∧ e.2 = fmt3 t) :
    ∀ e ∈ (ms.foldl matchBody st).times_map,
      e.2 = "---" ∨ ∃ t : ℚ, 0 < t ∧ e.2 = fmt3 t := by
  induction ms generalizing st with
  | nil => exact h
  | cons kv ms ih =>
    rw [List.foldl_cons]
    apply ih
    intro e he
    rw [show (matchBody st kv).times_map =
        upsert st.times_map kv.1 (timesEntry kv) from rfl, upsert] at he
    rcases List.mem_cons.1 he with he1 | he2
    · subst he1
      show timesEntry kv = "---" ∨ ∃ t : ℚ, 0 < t ∧ timesEntry kv = fmt3 t
      rw [timesEntry]
      split_ifs with ht
      · right
        exact ⟨_, ht, rfl⟩
      · left
        rfl
    · exact h e (List.mem_filter.1 he2).1

theorem times_map_shape (d : RaceData) (id : String) :
    ∀ e ∈ (aggregate d id).times_map,
      e.2 = "---" ∨ ∃ t : ℚ, 0 < t ∧ e.2 = fmt3 t := by
  rw [aggregate_eq]
  exact foldl_matchBody_times_mem _ initAgg
    (fun e he => absurd he (List.not_mem_nil e))

theorem upsert_keys_nodup {α : Type _} {m : List (String × α)}
    (h : (m.map Prod.fst).Nodup) (k : String) (v : α) :
    ((upsert m k v).map Prod.fst).Nodup := by
  rw [upsert, List.map_cons]
  refine List.Nodup.cons ?_ ?_
  · intro hk
    obtain ⟨e, he, hek⟩ := List.mem_map.1 hk
    have := (List.mem_filter.1 he).2
    simp only [decide_eq_true_eq] at this
    exact this hek
  · exact h.sublist ((List.filter_sublist m).map Prod.fst)

theorem foldl_matchBody_times_nodup (ms : List (String × SlotData)) (st : AggSt)
    (h : (st.times_map.map Prod.fst).Nodup) :
    (((ms.foldl matchBody st).times_map).map Prod.fst).Nodup := by
  induction ms generalizing st with
  | nil => exact h
  | cons kv ms ih =>
    rw [List.foldl_cons]
    exact ih _ (upsert_keys_nodup h kv.1 (timesEntry kv))

theorem times_map_nodup (d : RaceData) (id : String) :
    (((aggregate d id).times_map).map Prod.fst).Nodup := by
  rw [aggregate_eq]
  exact foldl_matchBody_times_nodup _ initAgg List.nodup_nil

theorem filter_key_toList {α : Type _} (m : List (String × α))
    (hnd : (m.map Prod.fst).Nodup) (s : String) :
    m.filter (fun e => e.1 == s) = (alookup m s).toList.map fun v => (s, v) := by
  induction m with
  | nil => rfl
  | cons e r ih =>
    rw [List.map_cons, List.nodup_cons] at hnd
    obtain ⟨he1, hnd'⟩ := hnd
    by_cases hek : e.1 = s
    · rw [List.filter_cons_of_pos (by simp [hek]), alookup, if_pos hek]
      have hr : r.filter (fun x => x.1 == s) = [] := by
        rw [List.filter_eq_nil_iff]
        intro x hx
        simp only [beq_iff_eq]
        intro hxs
        exact he1 (List.mem_map.2 ⟨x, hx, by rw [hxs, hek]⟩)
      rw [hr, ← hek]
      rfl
    · rw [List.filter_cons_of_neg (by simp [hek]), alookup, if_neg hek]
      exact ih hnd'

theorem filterMap_cons_toList {α β : Type _} (f : α → Option β) (a : α) (l : List α) :
    List.filterMap f (a :: l) = (f a).toList ++ List.filterMap f l := by
  cases h : f a with
  | none => rw [List.filterMap_cons_none h]; rfl
  | some b => rw [List.filterMap_cons_some h]; rfl

theorem stream_eq_aux (l : List PilotoDisplay) (s : String)
    (h : ∀ p ∈ l, (p.times_per_slot.map Prod.fst).Nodup) :
    (((l.flatMap fun p => p.times_per_slot).filter fun e => e.1 == s).map
        Prod.snd).filterMap parseDec =
      l.filterMap fun p => (alookup p.times_per_slot s).bind parseDec := by
  induction l with
  | nil => rfl
  | cons p l ih =>
    rw [List.flatMap_cons, List.filter_append, List.map_append, List.filterMap_append,
      ih (fun q hq => h q (by simp [hq])),
      filter_key_toList p.times_per_slot (h p (by simp)) s,
      filterMap_cons_toList]
    congr 1
    rw [List.map_map]
    cases alookup p.times_per_slot s with
    | none => rfl
    | some v =>
      show List.filterMap parseDec [v] = (parseDec v).toList
      cases hv : parseDec v with
      | none => rw [List.filterMap_cons_none hv]; rfl
      | some t => rw [List.filterMap_cons_some hv]; rfl

theorem finalRanking_times_nodup (d : RaceData) :
    ∀ p ∈ finalRanking d, (p.times_per_slot.map Prod.fst).Nodup := by
  intro p hp
  obtain ⟨ip, hip, rfl⟩ := mem_finalRanking.1 hp
  rw [applyFlag_times_per_slot,
    show (buildPilot d ip).times_per_slot = (aggregate d ip.1).times_map from rfl]
  exact times_map_nodup d ip.1

/-- A document where pilot A occupies slot "1" in two sessions, with times
30.0 then 40.0.  `times_map.insert` (line 159) overwrites, so only the
most recent entry (40.0) survives into `times_per_slot`, and the per-slot
best is computed from the surviving entries only. -/
def dC5 : RaceData :=
  { pilots := [("A", ⟨some "Alice"⟩)]
  , races :=
      [⟨[⟨[("1", ⟨.jstr "A", some 5, some 30⟩)]⟩,
         ⟨[("1", ⟨.jstr "A", some 6, some 40⟩)]⟩]⟩]
  , official_ranking := []
  , raw_results := []
  , metadata_slots := none }

/-- C5 (counterexample): the per-slot-best value is NOT always the minimum
strictly positive recorded time for the slot.  In `dC5` the strictly
positive recorded times of slot "1" are 30.0 and 40.0, with minimum 30.0
(formatted "30.000"), yet `best_times_per_slot` maps slot "1" to
"40.000": the per-pilot `times_map` HashMap keeps only the most recently
visited session's entry per slot, so the earlier 30.0 never reaches the
per-slot-best loop. -/
theorem claim_C5_counterexample :
    alookup (best_times_per_slot dC5) "1" = some "40.000" ∧
    listMin (slotRecordedPos dC5 "1") = some 30 ∧
    fmt3 30 = "30.000" ∧
    alookup (best_times_per_slot dC5) "1" ≠ some (fmt3 30) := by
  refine ⟨by decide, by decide, by decide, by decide⟩

/-- C5 (amended): for every document and slot id, the per-slot-best map's
entry for that slot is determined by the pilots' *stored* per-slot
formatted entries (each pilot contributes at most one entry per slot id —
the one from the most recently visited matching session): parsing each
stored entry and keeping the strictly positive values, the slot is present
iff that set is non-empty with minimum below the 999.999 sentinel, in
which case the value is that minimum formatted to 3 decimals; otherwise
the slot is absent — so presence/value reflect surviving stored entries,
not all recorded times. -/
theorem claim_C5_slot_best_amended (d : RaceData) (s : String) :
    alookup (best_times_per_slot d) s =
      match listMin (slotEntryVals d s) with
      | some m => if m < sentinel then some (fmt3 m) else none
      | none => none := by
  rw [best_times_per_slot, foldl_btsStep_proj]
  have hshape : ∀ v ∈ ((((finalRanking d).flatMap fun p => p.times_per_slot).filter
      fun e => e.1 == s).map Prod.snd), v = "---" ∨ ∃ t : ℚ, 0 < t ∧ v = fmt3 t := by
    intro v hv
    obtain ⟨e, he, rfl⟩ := List.mem_map.1 hv
    obtain ⟨p, hp, hep⟩ := List.mem_flatMap.1 (List.mem_filter.1 he).1
    obtain ⟨ip, hip, rfl⟩ := mem_finalRanking.1 hp
    rw [applyFlag_times_per_slot,
      show (buildPilot d ip).times_per_slot = (aggregate d ip.1).times_map from rfl] at hep
    exact times_map_shape d ip.1 e hep
  have h0 : alookup ([] : List (String × String)) s = (none : Option ℚ).map fmt3 := rfl
  rw [h0, foldl_stepS_qstep _ hshape none (by rintro m hm; cases hm),
    foldl_qstep_min _ none (by rintro m hm; cases hm),
    stream_eq_aux (finalRanking d) s (finalRanking_times_nodup d), slotEntryVals]
  cases listMin (((finalRanking d).filterMap fun p =>
      (alookup p.times_per_slot s).bind parseDec).filter fun t => 0 < t) with
  | none => rfl
  | some m =>
    show (if m < sentinel then some m else none).map fmt3 =
      if m < sentinel then some (fmt3 m) else none
    split_ifs <;> rfl
